import Mathlib

/-!
Verification development for the core of the rmdb record storage engine:
the slotted-page record file layer (`rm_file_handle.cpp`, `rm_scan.cpp`),
the buffer pool manager (`buffer_pool_manager.cpp`) and the LRU replacer
(`lru_replacer.cpp`).  Each C++ function is shallowly embedded as an
executable Lean function over explicit state; machine `int` values are
modelled as `Int`.
-/

namespace Rmdb

/-- Constant from the spec (§6): marker for "no page" in the free-page list. -/
def RM_NO_PAGE : Int := -1

/-- Constant from the spec (§6): marker for an unbound frame / failed allocation. -/
def INVALID_PAGE_ID : Int := -1

/-- Constant from the spec (§6): page 0 of a record file holds the file header. -/
def RM_FILE_HDR_PAGE : Int := 0

/-- Constant from the spec (§6): data pages start at page 1. -/
def RM_FIRST_RECORD_PAGE : Int := 1

/-- Record identity `(page_no, slot_no)` (`Rid` in the source). -/
structure Rid where
  page_no : Int
  slot_no : Int
deriving DecidableEq, Repr

/-- Error kinds surfaced by the record layer (§7): `PageNotExistError`,
`RecordNotFoundError`, and the generic `RMDBError` used for invalid slot
numbers and internal inconsistencies. -/
inductive RmError where
  | pageNotExist
  | recordNotFound
  | rmdbError
deriving DecidableEq, Repr

instance {ε α : Type _} [DecidableEq ε] [DecidableEq α] : DecidableEq (Except ε α) :=
  fun a b =>
    match a, b with
    | .ok x, .ok y => decidable_of_iff (x = y) (by simp)
    | .error x, .error y => decidable_of_iff (x = y) (by simp)
    | .ok _, .error _ => isFalse (by simp)
    | .error _, .ok _ => isFalse (by simp)

/-- Modelled from the spec: the `Bitmap` utility (§2, §6) is an external
collaborator ("test/set/reset/next-set/first-unset over a byte-packed bit
array").  We model the bit array as a `List Bool`; the record layer only
ever touches bits below `num_records_per_page`, so the list holds exactly
that view of the packed bytes.  `scanFirstI` is the shared linear search
`for (int i = start; fuel left; i++) if (bit i == b) return i`. -/
def Bitmap.scanFirstI (b : Bool) (bm : List Bool) : Nat → Int → Option Int
  | 0, _ => none
  | fuel + 1, i => if bm.getD i.toNat false == b then some i else Bitmap.scanFirstI b bm fuel (i + 1)

/-- Modelled from the spec: `Bitmap::first_bit(b, bm, max_n)` — the first
position `i` in `[0, max_n)` whose bit equals `b`, or `max_n` when none. -/
def Bitmap.first_bit (b : Bool) (bm : List Bool) (max_n : Int) : Int :=
  match Bitmap.scanFirstI b bm max_n.toNat 0 with
  | some i => i
  | none => max_n

/-- Modelled from the spec: `Bitmap::next_bit(b, bm, max_n, curr)` — the first
position strictly after `curr` and below `max_n` whose bit equals `b`, or
`max_n` when none. -/
def Bitmap.next_bit (b : Bool) (bm : List Bool) (max_n : Int) (curr : Int) : Int :=
  match Bitmap.scanFirstI b bm (max_n - (curr + 1)).toNat (curr + 1) with
  | some i => i
  | none => max_n

/-- Modelled from the spec: `Bitmap::is_set`.  Indices are non-negative at
every call site (they are range-checked first). -/
def Bitmap.is_set (bm : List Bool) (i : Int) : Bool :=
  bm.getD i.toNat false

/-- Modelled from the spec: `Bitmap::set`. -/
def Bitmap.setBit (bm : List Bool) (i : Int) : List Bool :=
  bm.set i.toNat true

/-- Modelled from the spec: `Bitmap::reset`. -/
def Bitmap.resetBit (bm : List Bool) (i : Int) : List Bool :=
  bm.set i.toNat false

/-- File header `RmFileHdr` (§3), persisted as page 0 of each record file. -/
structure RmFileHdr where
  record_size : Int
  num_pages : Int
  num_records_per_page : Int
  first_free_page_no : Int
  bitmap_size : Int
deriving Repr

/-- Per data page header `RmPageHdr` (§3). -/
structure RmPageHdr where
  num_records : Int
  next_free_page_no : Int
deriving Repr

/-- One data page: header, slot bitmap (the `[0, num_records_per_page)` view)
and the slot array (each slot is `record_size` bytes).  The `dirty` flag is
the buffer-pool dirty bit of the frame holding this page, which the record
layer drives through `mark_dirty` and `unpin_page(…, true)`. -/
structure RmPage where
  page_hdr : RmPageHdr
  bitmap : List Bool
  slots : List (List Int)
  dirty : Bool

/-- Modelled from the spec: an open record file as seen through `RmFileHandle`.
The buffer pool and disk manager are abstracted as a reliable page store
(`pages`); the record-layer claims never exercise buffer-pool exhaustion.
`pages p` is meaningful for `RM_FIRST_RECORD_PAGE ≤ p < num_pages`. -/
structure RmFile where
  file_hdr : RmFileHdr
  pages : Int → RmPage

/-- Replace one data page of the file. -/
def RmFile.setPage (s : RmFile) (p : Int) (pg : RmPage) : RmFile :=
  { s with pages := fun q => if q = p then pg else s.pages q }

/-- Embedding of `RmFileHandle::get_record` (rm_file_handle.cpp:19-49):
range-check the page (as `fetch_page_handle` does), range-check the slot,
require the bitmap bit to be set, then copy the `record_size` bytes of the
slot out.  The checks and their error kinds follow the source order. -/
def RmFileHandle.get_record (s : RmFile) (rid : Rid) : Except RmError (List Int) :=
  if rid.page_no ≤ RM_FILE_HDR_PAGE ∨ rid.page_no ≥ s.file_hdr.num_pages then
    .error .pageNotExist
  else
    let ph := s.pages rid.page_no
    if rid.slot_no < 0 ∨ rid.slot_no ≥ s.file_hdr.num_records_per_page then
      .error .rmdbError
    else if ¬ Bitmap.is_set ph.bitmap rid.slot_no then
      .error .recordNotFound
    else
      .ok (ph.slots.getD rid.slot_no.toNat [])

/-- Embedding of `RmFileHandle::create_new_page_handle`
(rm_file_handle.cpp:241-274).  Modelled from the spec for the buffer-pool /
disk-manager part: `allocate_page` "atomically extends the file by one page"
(§6), so the fresh `page_no` is the current `num_pages`; `new_page` resets
the frame memory, so the new page starts with a zeroed header region,
and the code then sets `num_records = 0`, `next_free_page_no = RM_NO_PAGE`,
clears the bitmap, bumps `num_pages` when past the end, and marks dirty. -/
def RmFileHandle.create_new_page_handle (s : RmFile) : Int × RmFile :=
  let new_page_no := s.file_hdr.num_pages
  let npp := s.file_hdr.num_records_per_page
  let pg : RmPage :=
    { page_hdr := { num_records := 0, next_free_page_no := RM_NO_PAGE }
      bitmap := List.replicate npp.toNat false
      slots := List.replicate npp.toNat (List.replicate s.file_hdr.record_size.toNat 0)
      dirty := true }
  let num_pages' := if new_page_no ≥ s.file_hdr.num_pages then new_page_no + 1 else s.file_hdr.num_pages
  (new_page_no,
    { (s.setPage new_page_no pg) with
        file_hdr := { s.file_hdr with num_pages := num_pages' } })

/-- Embedding of `RmFileHandle::create_page_handle` (rm_file_handle.cpp:282-294):
when `first_free_page_no != RM_NO_PAGE` it fetches that page — with only
`fetch_page_handle`'s range check, and no re-check of the page's capacity —
otherwise it delegates to `create_new_page_handle`. -/
def RmFileHandle.create_page_handle (s : RmFile) : Except RmError (Int × RmFile) :=
  if s.file_hdr.first_free_page_no ≠ RM_NO_PAGE then
    if s.file_hdr.first_free_page_no ≤ RM_FILE_HDR_PAGE ∨
        s.file_hdr.first_free_page_no ≥ s.file_hdr.num_pages then
      .error .pageNotExist
    else
      .ok (s.file_hdr.first_free_page_no, s)
  else
    .ok (RmFileHandle.create_new_page_handle s)

/-- Embedding of `RmFileHandle::insert_record(buf)` (rm_file_handle.cpp:57-106).
The result is the thrown error or the new `Rid`, paired with the file state
after the call — a thrown C++ exception does not roll back earlier mutations,
so the state is returned on every exit.  The sanity check mirrors lines
71-76: if the page supplied by `create_page_handle` has no free slot the
function throws `RMDBError` (after unpinning). -/
def RmFileHandle.insert_into (s1 : RmFile) (p : Int) (buf : List Int) :
    Except RmError Rid × RmFile :=
  let npp := s1.file_hdr.num_records_per_page
  let ph := s1.pages p
  let slot_no := Bitmap.first_bit false ph.bitmap npp
  if slot_no = npp ∨ ph.page_hdr.num_records ≥ npp then
    (.error .rmdbError, s1)
  else
    let ph' : RmPage :=
      { ph with
          slots := ph.slots.set slot_no.toNat buf
          bitmap := Bitmap.setBit ph.bitmap slot_no
          page_hdr := { ph.page_hdr with num_records := ph.page_hdr.num_records + 1 }
          dirty := true }
    let s2 := s1.setPage p ph'
    let s3 :=
      if ph'.page_hdr.num_records = npp then
        if s2.file_hdr.first_free_page_no = p then
          { s2 with file_hdr := { s2.file_hdr with first_free_page_no := ph'.page_hdr.next_free_page_no } }
        else s2
      else s2
    (.ok ⟨p, slot_no⟩, s3)

/-- Embedding of `RmFileHandle::insert_record(buf)`: obtain a page with
free space through `create_page_handle`, then insert into it. -/
def RmFileHandle.insert_record (s : RmFile) (buf : List Int) : Except RmError Rid × RmFile :=
  match RmFileHandle.create_page_handle s with
  | .error e => (.error e, s)
  | .ok (p, s1) => RmFileHandle.insert_into s1 p buf

/-- Embedding of the positional `RmFileHandle::insert_record(rid, buf)`
(rm_file_handle.cpp:113-138): fetch the page, validate the slot range,
overwrite the slot bytes; if the bit was unset, set it and bump
`num_records`, otherwise just (re)set it; mark dirty.  It never touches the
free list. -/
def RmFileHandle.insert_record_at (s : RmFile) (rid : Rid) (buf : List Int) :
    Except RmError Unit × RmFile :=
  if rid.page_no ≤ RM_FILE_HDR_PAGE ∨ rid.page_no ≥ s.file_hdr.num_pages then
    (.error .pageNotExist, s)
  else
    let ph := s.pages rid.page_no
    if rid.slot_no < 0 ∨ rid.slot_no ≥ s.file_hdr.num_records_per_page then
      (.error .rmdbError, s)
    else
      let was_set := Bitmap.is_set ph.bitmap rid.slot_no
      let ph' : RmPage :=
        if was_set then
          { ph with
              slots := ph.slots.set rid.slot_no.toNat buf
              bitmap := Bitmap.setBit ph.bitmap rid.slot_no
              dirty := true }
        else
          { ph with
              slots := ph.slots.set rid.slot_no.toNat buf
              bitmap := Bitmap.setBit ph.bitmap rid.slot_no
              page_hdr := { ph.page_hdr with num_records := ph.page_hdr.num_records + 1 }
              dirty := true }
      (.ok (), s.setPage rid.page_no ph')

/-- Embedding of `RmFileHandle::release_page_handle` (rm_file_handle.cpp:299-310):
push a page that regained free space onto the head of the free-page list. -/
def RmFileHandle.release_page_handle (s : RmFile) (p : Int) : RmFile :=
  let ph := s.pages p
  let ph' : RmPage :=
    { ph with
        page_hdr := { ph.page_hdr with next_free_page_no := s.file_hdr.first_free_page_no }
        dirty := true }
  { (s.setPage p ph') with
      file_hdr := { s.file_hdr with first_free_page_no := p } }

/-- Embedding of `RmFileHandle::delete_record` (rm_file_handle.cpp:145-177):
validate, clear the bit, decrement `num_records`, mark dirty, and release
the page to the free list when the deletion took it from full to non-full. -/
def RmFileHandle.delete_record (s : RmFile) (rid : Rid) : Except RmError Unit × RmFile :=
  if rid.page_no ≤ RM_FILE_HDR_PAGE ∨ rid.page_no ≥ s.file_hdr.num_pages then
    (.error .pageNotExist, s)
  else
    let npp := s.file_hdr.num_records_per_page
    let ph := s.pages rid.page_no
    if rid.slot_no < 0 ∨ rid.slot_no ≥ npp then
      (.error .rmdbError, s)
    else if ¬ Bitmap.is_set ph.bitmap rid.slot_no then
      (.error .recordNotFound, s)
    else
      let was_full := ph.page_hdr.num_records = npp
      let ph1 : RmPage :=
        { ph with
            bitmap := Bitmap.resetBit ph.bitmap rid.slot_no
            page_hdr := { ph.page_hdr with num_records := ph.page_hdr.num_records - 1 }
            dirty := true }
      let s1 := s.setPage rid.page_no ph1
      if was_full ∧ ph1.page_hdr.num_records < npp then
        (.ok (), RmFileHandle.release_page_handle s1 rid.page_no)
      else
        (.ok (), s1)

/-- Embedding of `RmFileHandle::update_record` (rm_file_handle.cpp:186-208):
validate as get/delete do, overwrite the slot bytes, mark dirty. -/
def RmFileHandle.update_record (s : RmFile) (rid : Rid) (buf : List Int) :
    Except RmError Unit × RmFile :=
  if rid.page_no ≤ RM_FILE_HDR_PAGE ∨ rid.page_no ≥ s.file_hdr.num_pages then
    (.error .pageNotExist, s)
  else
    let ph := s.pages rid.page_no
    if rid.slot_no < 0 ∨ rid.slot_no ≥ s.file_hdr.num_records_per_page then
      (.error .rmdbError, s)
    else if ¬ Bitmap.is_set ph.bitmap rid.slot_no then
      (.error .recordNotFound, s)
    else
      let ph' : RmPage := { ph with slots := ph.slots.set rid.slot_no.toNat buf, dirty := true }
      (.ok (), s.setPage rid.page_no ph')

/-- One iteration batch of the `while` loop of `RmScan::next`
(rm_scan.cpp:46-62).  The loop advances `page_no` towards `num_pages`, so
`fuel = (num_pages - page_no).toNat` iterations always suffice; running out
of fuel coincides with the loop condition `page_no < num_pages` failing. -/
def RmScan.scanLoop (s : RmFile) : Nat → Int → Int → Rid
  | 0, _, _ => ⟨RM_NO_PAGE, -1⟩
  | fuel + 1, p, slot =>
    if p < RM_FIRST_RECORD_PAGE ∨ p ≥ s.file_hdr.num_pages then ⟨RM_NO_PAGE, -1⟩
    else
      let ph := s.pages p
      let ns := Bitmap.next_bit true ph.bitmap s.file_hdr.num_records_per_page slot
      if ns < s.file_hdr.num_records_per_page then ⟨p, ns⟩
      else RmScan.scanLoop s fuel (p + 1) (-1)

/-- Embedding of `RmScan::next` (rm_scan.cpp:38-69): a no-op once at the end
state, otherwise advance to the next set bit at or after the cursor. -/
def RmScan.next (s : RmFile) (r : Rid) : Rid :=
  if r.page_no = RM_NO_PAGE then r
  else RmScan.scanLoop s (s.file_hdr.num_pages - r.page_no).toNat r.page_no r.slot_no

/-- Embedding of the `RmScan` constructor (rm_scan.cpp:18-33) with a live
file handle: start at `(RM_FIRST_RECORD_PAGE, -1)` and advance. -/
def RmScan.start (s : RmFile) : Rid :=
  RmScan.next s ⟨RM_FIRST_RECORD_PAGE, -1⟩

/-- Embedding of `RmScan::is_end` (rm_scan.cpp:74-89) with a live file
handle: the cursor is exhausted exactly when `page_no == RM_NO_PAGE`. -/
def RmScan.is_end (r : Rid) : Bool :=
  r.page_no = RM_NO_PAGE

/-- Repeatedly read `rid()` and call `next()` until `is_end()`, collecting
the visited rids.  Fuel-bounded; `RmScan.scanList` supplies enough fuel. -/
def RmScan.collect (s : RmFile) : Nat → Rid → List Rid
  | 0, _ => []
  | fuel + 1, r =>
    if r.page_no = RM_NO_PAGE then []
    else r :: RmScan.collect s fuel (RmScan.next s r)

/-- The full scan of a file: every rid the cursor visits, in visiting order.
The fuel bound `num_pages * (num_records_per_page + 1) + 1` dominates the
number of cursor positions. -/
def RmScan.scanList (s : RmFile) : List Rid :=
  RmScan.collect s
    (s.file_hdr.num_pages.toNat * (s.file_hdr.num_records_per_page.toNat + 1) + 1)
    (RmScan.start s)

/-- A freshly created, empty data page (zeroed frame with an initialized
`RmPageHdr` and cleared bitmap). -/
def emptyPage (npp rs : Int) : RmPage :=
  { page_hdr := { num_records := 0, next_free_page_no := RM_NO_PAGE }
    bitmap := List.replicate npp.toNat false
    slots := List.replicate npp.toNat (List.replicate rs.toNat 0)
    dirty := false }

/-- Modelled from the spec: a newly created record file (§6 on-disk layout)
with only the header page (`num_pages = 1`) and an empty free-page list. -/
def emptyFile (rs npp bs : Int) : RmFile :=
  { file_hdr :=
      { record_size := rs, num_pages := 1, num_records_per_page := npp
        first_free_page_no := RM_NO_PAGE, bitmap_size := bs }
    pages := fun _ => emptyPage npp rs }

/-- Structural well-formedness of a file state: positive capacities and
every page's bitmap / slot array sized to `num_records_per_page`. -/
def RmFile.wf (s : RmFile) : Prop :=
  1 ≤ s.file_hdr.num_pages ∧
  1 ≤ s.file_hdr.num_records_per_page ∧
  0 ≤ s.file_hdr.record_size ∧
  (∀ p : Int, (s.pages p).bitmap.length = s.file_hdr.num_records_per_page.toNat) ∧
  (∀ p : Int, (s.pages p).slots.length = s.file_hdr.num_records_per_page.toNat)

/-! ## LRU replacer (lru_replacer.cpp)

The replacer state is `LRUlist_`, an order-preserving list of frame ids
with the MRU at the head and the LRU at the tail.  The companion hash map
`LRUhash_` is a position index for O(1) removal whose keys always equal
the list's elements (the source invariant), so membership in the list
models membership in the map and iterator-based erasure is `List.erase`. -/

/-- Embedding of `LRUReplacer::victim` (lru_replacer.cpp:22-45): fails on an
empty list, otherwise removes and returns the tail (LRU) element. -/
def LRUReplacer.victim (l : List Nat) : Option (Nat × List Nat) :=
  match l.getLast? with
  | none => none
  | some f => some (f, l.dropLast)

/-- Embedding of `LRUReplacer::pin` (lru_replacer.cpp:51-62): erase the frame
from the eligible list if present, no-op otherwise. -/
def LRUReplacer.pinFrame (l : List Nat) (f : Nat) : List Nat :=
  l.erase f

/-- Embedding of `LRUReplacer::unpin` (lru_replacer.cpp:67-96): no-op when the
frame is already eligible, otherwise push it to the head (MRU end). -/
def LRUReplacer.unpinFrame (l : List Nat) (f : Nat) : List Nat :=
  if f ∈ l then l else f :: l

/-! ## Buffer pool manager (buffer_pool_manager.cpp) -/

/-- Page identity `(fd, page_no)`; `page_no = INVALID_PAGE_ID` means unbound. -/
structure PageId where
  fd : Int
  page_no : Int
deriving DecidableEq, Repr

/-- Byte content of one `PAGE_SIZE` buffer, as a function from offset to byte. -/
def PData : Type := Nat → Int

/-- Modelled from the spec: `Page::reset_memory` zeroes the frame buffer. -/
def resetData : PData := fun _ => 0

/-- One buffer-pool frame's `Page` object: bound `PageId`, pin count, dirty
flag and data buffer (§3 data model; the `Page` class is declared outside
the four source files, with exactly these fields). -/
structure BPage where
  id : PageId
  pin_count : Int
  is_dirty : Bool
  data : PData

/-- Placeholder used for out-of-range frame reads (never reached when frame
ids are below `pool_size`). -/
def dummyPage : BPage :=
  { id := { fd := 0, page_no := INVALID_PAGE_ID }, pin_count := 0, is_dirty := false
    data := resetData }

/-- Buffer pool manager state: the frame array `pages_`, the page table
(association list with unique keys, modelling `std::unordered_map`), the
free-frame list, the replacer's LRU list, and the disk contents reachable
through the disk manager. -/
structure BufferPoolManager where
  pages : List BPage
  page_table : List (PageId × Nat)
  free_list : List Nat
  replacer : List Nat
  disk : PageId → PData

/-- Look a page id up in the page table (`page_table_.find`). -/
def ptLookup (pt : List (PageId × Nat)) (pid : PageId) : Option Nat :=
  (pt.find? (fun e => e.1 == pid)).map (·.2)

/-- Remove a page id from the page table (`page_table_.erase`). -/
def ptErase (pt : List (PageId × Nat)) (pid : PageId) : List (PageId × Nat) :=
  pt.filter (fun e => e.1 != pid)

/-- Insert-or-assign a page-table entry (`page_table_[pid] = f`). -/
def ptInsert (pt : List (PageId × Nat)) (pid : PageId) (f : Nat) : List (PageId × Nat) :=
  (pid, f) :: ptErase pt pid

/-- Read frame `f` of the pool. -/
def BufferPoolManager.getPage (b : BufferPoolManager) (f : Nat) : BPage :=
  b.pages.getD f dummyPage

/-- Replace frame `f` of the pool. -/
def BufferPoolManager.setFrame (b : BufferPoolManager) (f : Nat) (pg : BPage) : BufferPoolManager :=
  { b with pages := b.pages.set f pg }

/-- Write one page image to disk (`disk_manager_->write_page`). -/
def writeDisk (d : PageId → PData) (pid : PageId) (content : PData) : PageId → PData :=
  fun q => if q = pid then content else d q

/-- Embedding of `BufferPoolManager::find_victim_page`
(buffer_pool_manager.cpp:18-34): prefer the free list, else ask the
replacer; both already remove the frame from their structure. -/
def BufferPoolManager.find_victim_page (b : BufferPoolManager) :
    Option (Nat × BufferPoolManager) :=
  match b.free_list with
  | f :: rest => some (f, { b with free_list := rest })
  | [] =>
    match LRUReplacer.victim b.replacer with
    | some (f, l') => some (f, { b with replacer := l' })
    | none => none

/-- Embedding of `BufferPoolManager::update_page` (buffer_pool_manager.cpp:42-73):
write back and clean a dirty bound frame, drop its page-table entry, then
either bind the frame to the new page id (inserting the table entry and
resetting the memory) or fully unbind it. -/
def BufferPoolManager.update_page (b : BufferPoolManager) (f : Nat) (new_pid : PageId) :
    BufferPoolManager :=
  let page := b.getPage f
  let b1 :=
    if page.id.page_no ≠ INVALID_PAGE_ID then
      let d' := if page.is_dirty then writeDisk b.disk page.id page.data else b.disk
      let pg' := if page.is_dirty then { page with is_dirty := false } else page
      { (b.setFrame f pg') with disk := d', page_table := ptErase b.page_table page.id }
    else b
  let page1 := b1.getPage f
  if new_pid.page_no ≠ INVALID_PAGE_ID then
    let pg2 := { page1 with id := new_pid, data := resetData }
    { (b1.setFrame f pg2) with page_table := ptInsert b1.page_table new_pid f }
  else
    let pg2 := { page1 with id := new_pid, pin_count := 0, is_dirty := false, data := resetData }
    b1.setFrame f pg2

/-- Embedding of `BufferPoolManager::fetch_page` (buffer_pool_manager.cpp:82-131).
Returns the frame id holding the requested page (the C++ `Page*` aliases
`pages_[frame_id]`), or `none` on pool exhaustion. -/
def BufferPoolManager.fetch_page (b : BufferPoolManager) (pid : PageId) :
    Option Nat × BufferPoolManager :=
  match ptLookup b.page_table pid with
  | some f =>
    let pg := b.getPage f
    let b1 := b.setFrame f { pg with pin_count := pg.pin_count + 1 }
    (some f, { b1 with replacer := LRUReplacer.pinFrame b1.replacer f })
  | none =>
    match b.find_victim_page with
    | none => (none, b)
    | some (f, b1) =>
      let b2 := b1.update_page f pid
      let pg := b2.getPage f
      let pg' := { pg with data := b2.disk pid, pin_count := 1, is_dirty := false }
      let b3 := b2.setFrame f pg'
      (some f, { b3 with replacer := LRUReplacer.pinFrame b3.replacer f })

/-- Embedding of `BufferPoolManager::unpin_page` (buffer_pool_manager.cpp:139-183). -/
def BufferPoolManager.unpin_page (b : BufferPoolManager) (pid : PageId) (is_dirty : Bool) :
    Bool × BufferPoolManager :=
  match ptLookup b.page_table pid with
  | none => (false, b)
  | some f =>
    let pg := b.getPage f
    if pg.pin_count ≤ 0 then (false, b)
    else
      let pc := pg.pin_count - 1
      let pg' := { pg with pin_count := pc, is_dirty := if is_dirty then true else pg.is_dirty }
      let b1 := b.setFrame f pg'
      if pc = 0 then (true, { b1 with replacer := LRUReplacer.unpinFrame b1.replacer f })
      else (true, b1)

/-- Embedding of `BufferPoolManager::flush_page` (buffer_pool_manager.cpp:190-218):
unconditionally write the frame back (at the frame's own id) and clear dirty. -/
def BufferPoolManager.flush_page (b : BufferPoolManager) (pid : PageId) :
    Bool × BufferPoolManager :=
  match ptLookup b.page_table pid with
  | none => (false, b)
  | some f =>
    let pg := b.getPage f
    let b1 := { (b.setFrame f { pg with is_dirty := false }) with
                  disk := writeDisk b.disk pg.id pg.data }
    (true, b1)

/-- Embedding of `BufferPoolManager::new_page` (buffer_pool_manager.cpp:225-264).
Modelled from the spec for the disk manager: `allocate_page` is an external
call whose outcome is supplied as the oracle input `allocRes` (`some n` for
a fresh page number, `none` for `INVALID_PAGE_ID`).  On allocation failure
the source returns `nullptr` without returning the already-obtained victim
frame to the free list or the replacer (the comment at line 245 records the
unhandled hand-back). -/
def BufferPoolManager.new_page (b : BufferPoolManager) (fd : Int) (allocRes : Option Int) :
    Option (PageId × Nat) × BufferPoolManager :=
  match b.find_victim_page with
  | none => (none, b)
  | some (f, b1) =>
    match allocRes with
    | none => (none, b1)
    | some n =>
      let pid : PageId := { fd := fd, page_no := n }
      let b2 := b1.update_page f pid
      let pg := b2.getPage f
      let b3 := b2.setFrame f { pg with pin_count := 1, is_dirty := false }
      (some (pid, f), { b3 with replacer := LRUReplacer.pinFrame b3.replacer f })

/-- Embedding of `BufferPoolManager::delete_page` (buffer_pool_manager.cpp:271-317). -/
def BufferPoolManager.delete_page (b : BufferPoolManager) (pid : PageId) :
    Bool × BufferPoolManager :=
  match ptLookup b.page_table pid with
  | none => (true, b)
  | some f =>
    let pg := b.getPage f
    if pg.pin_count > 0 then (false, b)
    else
      let d' := if pg.is_dirty then writeDisk b.disk pg.id pg.data else b.disk
      let pg2 : BPage :=
        { pg with id := { pg.id with page_no := INVALID_PAGE_ID }, pin_count := 0
                  is_dirty := false, data := resetData }
      (true,
        { (b.setFrame f pg2) with
            disk := d'
            page_table := ptErase b.page_table pid
            replacer := LRUReplacer.pinFrame b.replacer f
            free_list := b.free_list ++ [f] })

/-- Embedding of `BufferPoolManager::flush_all_pages` (buffer_pool_manager.cpp:323-338):
write back and clean every dirty frame bound to the given file. -/
def BufferPoolManager.flush_all_pages (b : BufferPoolManager) (fd : Int) : BufferPoolManager :=
  b.page_table.foldl
    (fun acc e =>
      if e.1.fd = fd then
        let pg := acc.getPage e.2
        if pg.is_dirty then
          { (acc.setFrame e.2 { pg with is_dirty := false }) with
              disk := writeDisk acc.disk pg.id pg.data }
        else acc
      else acc)
    b

/-- Modelled from the spec: the buffer pool constructor (§4.2) starts with
all frames unbound on the free list, an empty page table and an empty
replacer. -/
def BufferPoolManager.mkInit (pool_size : Nat) (disk : PageId → PData) : BufferPoolManager :=
  { pages := List.replicate pool_size dummyPage
    page_table := []
    free_list := List.range pool_size
    replacer := []
    disk := disk }

/-- One externally invokable buffer-pool operation, with the disk manager's
allocation outcome carried as an oracle input on `newp`. -/
inductive BpmOp where
  | fetch (pid : PageId)
  | newp (fd : Int) (allocRes : Option Int)
  | unpin (pid : PageId) (is_dirty : Bool)
  | flush (pid : PageId)
  | flushAll (fd : Int)
  | delete (pid : PageId)

/-- Apply one operation, discarding the returned value. -/
def BpmOp.apply (b : BufferPoolManager) : BpmOp → BufferPoolManager
  | .fetch pid => (b.fetch_page pid).2
  | .newp fd allocRes => (b.new_page fd allocRes).2
  | .unpin pid d => (b.unpin_page pid d).2
  | .flush pid => (b.flush_page pid).2
  | .flushAll fd => b.flush_all_pages fd
  | .delete pid => (b.delete_page pid).2

/-- The buffer-pool state reached from a fresh pool by a sequence of
operations. -/
def BufferPoolManager.replay (pool_size : Nat) (disk : PageId → PData)
    (ops : List BpmOp) : BufferPoolManager :=
  ops.foldl BpmOp.apply (BufferPoolManager.mkInit pool_size disk)

/-- A frame is bound, i.e. the page table maps some page id to it. -/
def BufferPoolManager.boundFrame (b : BufferPoolManager) (f : Nat) : Prop :=
  ∃ e ∈ b.page_table, e.2 = f

/-- The C1 invariant (§3 Invariants): every frame id below `pool_size` is in
exactly one of the free list and the page table, and is in the replacer iff
it is bound with pin count 0. -/
def BufferPoolManager.frameInvariant (b : BufferPoolManager) : Prop :=
  ∀ f ∈ List.range b.pages.length,
    ((f ∈ b.free_list ∧ ¬ b.boundFrame f) ∨ (f ∉ b.free_list ∧ b.boundFrame f)) ∧
    (f ∈ b.replacer ↔ ∃ e ∈ b.page_table, e.2 = f ∧ (b.getPage f).pin_count = 0)

instance (b : BufferPoolManager) (f : Nat) : Decidable (b.boundFrame f) := by
  unfold BufferPoolManager.boundFrame; infer_instance

instance (b : BufferPoolManager) : Decidable b.frameInvariant := by
  unfold BufferPoolManager.frameInvariant; infer_instance

/-! ## Derived notions used by the claims -/

/-- Run a sequence of `insert_record(buf)` calls, collecting each call's
result alongside the final file state. -/
def insertAll : RmFile → List (List Int) → List (Except RmError Rid) × RmFile
  | s, [] => ([], s)
  | s, buf :: bufs =>
    let r := RmFileHandle.insert_record s buf
    let rest := insertAll r.2 bufs
    (r.1 :: rest.1, rest.2)

/-- Strict `(page_no, slot_no)` lexicographic order on rids. -/
def ridLt (a b : Rid) : Prop :=
  a.page_no < b.page_no ∨ (a.page_no = b.page_no ∧ a.slot_no < b.slot_no)

instance (a b : Rid) : Decidable (ridLt a b) := by
  unfold ridLt; infer_instance

/-- The bitmap of a page holding exactly one record, in slot 0. -/
def onlySlot0 (k : Nat) : List Bool :=
  true :: List.replicate (k - 1) false

/-- Shape of the file produced by `n` fresh-page inserts from an empty file:
pages `1..n` each hold exactly the record in slot 0, and the free-page list
is empty (`create_new_page_handle` never links new pages into it). -/
def insertShape (rs npp bs : Int) (n : Nat) (s : RmFile) : Prop :=
  s.file_hdr.record_size = rs ∧
  s.file_hdr.num_records_per_page = npp ∧
  s.file_hdr.bitmap_size = bs ∧
  s.file_hdr.num_pages = (n : Int) + 1 ∧
  s.file_hdr.first_free_page_no = RM_NO_PAGE ∧
  ∀ p : Int, 1 ≤ p → p ≤ (n : Int) →
    (s.pages p).bitmap = onlySlot0 npp.toNat ∧ (s.pages p).page_hdr.num_records = 1

/-- A page satisfies the record-count invariant: `num_records` equals the
population count of its slot bitmap (the `[0, num_records_per_page)` view). -/
def RmPage.countOk (pg : RmPage) : Prop :=
  pg.page_hdr.num_records = (pg.bitmap.count true : Int)

/-- The C5 invariant over a whole file: every data page satisfies
`RmPage.countOk`. -/
def RmFile.countInv (s : RmFile) : Prop :=
  ∀ p : Int, RM_FIRST_RECORD_PAGE ≤ p → p < s.file_hdr.num_pages →
    (s.pages p).countOk

/-! ## Replacer histories (for C9) -/

/-- An externally invokable replacer operation. -/
inductive RepOp where
  | pin (f : Nat)
  | unpin (f : Nat)
  | victim
deriving DecidableEq, Repr

/-- Apply one replacer operation to the `LRUlist_` state (a failing `victim`
leaves the list unchanged). -/
def LRUReplacer.stepOp (l : List Nat) : RepOp → List Nat
  | .pin f => LRUReplacer.pinFrame l f
  | .unpin f => LRUReplacer.unpinFrame l f
  | .victim =>
    match LRUReplacer.victim l with
    | none => l
    | some (_, l') => l'

/-- The replacer state after a sequence of operations from the empty
replacer. -/
def LRUReplacer.runOps (ops : List RepOp) : List Nat :=
  ops.foldl LRUReplacer.stepOp []

/-- The replacer state after the first `t` operations. -/
def LRUReplacer.stateAt (ops : List RepOp) (t : Nat) : List Nat :=
  LRUReplacer.runOps (ops.take t)

/-- Operation index `u` is an effective unpin of frame `f`: the operation is
`unpin f` and `f` was not eligible just before it (so it actually entered
the list there; an unpin of an already-eligible frame is a no-op). -/
def effUnpinAt (ops : List RepOp) (u : Nat) (f : Nat) : Prop :=
  ops.getD u .victim = .unpin f ∧ f ∉ LRUReplacer.stateAt ops u

instance (ops : List RepOp) (u f : Nat) : Decidable (effUnpinAt ops u f) := by
  unfold effUnpinAt; infer_instance

/-- The time of the most recent effective unpin of frame `f` over the whole
operation sequence, if any. -/
def lastEffUnpin (ops : List RepOp) (f : Nat) : Option Nat :=
  ((List.range ops.length).filter (fun u => decide (effUnpinAt ops u f))).max?

/-- Ghost step: the eligible list with, alongside each frame, the time of the
effective unpin that inserted it. -/
def gstep (t : Nat) (gs : List (Nat × Nat)) : RepOp → List (Nat × Nat)
  | .pin f => gs.filter (fun e => e.1 != f)
  | .unpin f => if f ∈ gs.map Prod.fst then gs else (f, t) :: gs
  | .victim => gs.dropLast

/-- Ghost replay of a suffix of operations starting at time `t`. -/
def greplayAux : Nat → List RepOp → List (Nat × Nat) → List (Nat × Nat)
  | _, [], gs => gs
  | t, op :: ops, gs => greplayAux (t + 1) ops (gstep t gs op)

/-- Ghost replay of a whole operation sequence from the empty replacer. -/
def greplay (ops : List RepOp) : List (Nat × Nat) :=
  greplayAux 0 ops []

/-- Invariant tying the ghost list at time `t` to the operation history:
frames are unique, insertion times strictly decrease from MRU to LRU, every
timestamp is a past effective unpin of its frame, and each frame has stayed
eligible ever since its recorded unpin. -/
def GInv (full : List RepOp) (t : Nat) (gs : List (Nat × Nat)) : Prop :=
  (gs.map Prod.fst).Nodup ∧
  List.Pairwise (fun a b => b.2 < a.2) gs ∧
  (∀ e ∈ gs, e.2 < t) ∧
  (∀ e ∈ gs, effUnpinAt full e.2 e.1) ∧
  (∀ e ∈ gs, ∀ v : Nat, e.2 < v → v ≤ t → e.1 ∈ LRUReplacer.stateAt full v)

/-- The C9 description of the replacer, over an arbitrary operation history
from the empty replacer: `victim` fails exactly on an empty eligible set,
and otherwise removes and returns the eligible frame whose most recent
effective unpin is earliest; `unpin` is a no-op on an eligible frame and
otherwise makes the frame the MRU head; `pin` is a no-op on an absent frame
and otherwise removes exactly that frame. -/
def lru_replacer_spec (ops : List RepOp) : Prop :=
  (LRUReplacer.victim (LRUReplacer.runOps ops) = none ↔ LRUReplacer.runOps ops = []) ∧
  (∀ (f : Nat) (l' : List Nat),
    LRUReplacer.victim (LRUReplacer.runOps ops) = some (f, l') →
      f ∈ LRUReplacer.runOps ops ∧
      (∀ g ∈ LRUReplacer.runOps ops, ∃ u v : Nat,
        lastEffUnpin ops f = some u ∧ lastEffUnpin ops g = some v ∧ u ≤ v) ∧
      (∀ g : Nat, g ∈ l' ↔ (g ∈ LRUReplacer.runOps ops ∧ g ≠ f))) ∧
  (∀ f, f ∈ LRUReplacer.runOps ops →
    LRUReplacer.unpinFrame (LRUReplacer.runOps ops) f = LRUReplacer.runOps ops) ∧
  (∀ f, f ∉ LRUReplacer.runOps ops →
    LRUReplacer.unpinFrame (LRUReplacer.runOps ops) f = f :: LRUReplacer.runOps ops) ∧
  (∀ f, f ∉ LRUReplacer.runOps ops →
    LRUReplacer.pinFrame (LRUReplacer.runOps ops) f = LRUReplacer.runOps ops) ∧
  (∀ f g : Nat, g ∈ LRUReplacer.pinFrame (LRUReplacer.runOps ops) f
    ↔ (g ∈ LRUReplacer.runOps ops ∧ g ≠ f))

/-! ## Behavioural specifications quoted by the buffer-pool claims -/

/-- The C2 description of `fetch_page`, case-split exactly as the claim is:
page-table hit; miss with no victim available; miss with a victim frame. -/
def fetch_page_spec (b : BufferPoolManager) (pid : PageId) : Prop :=
  match ptLookup b.page_table pid with
  | some f =>
    (b.fetch_page pid).1 = some f ∧
    ((b.fetch_page pid).2.pages
        = b.pages.set f { b.getPage f with pin_count := (b.getPage f).pin_count + 1 }) ∧
    ((b.fetch_page pid).2.replacer = LRUReplacer.pinFrame b.replacer f) ∧
    (b.replacer.Nodup → f ∉ (b.fetch_page pid).2.replacer) ∧
    ((b.fetch_page pid).2.page_table = b.page_table) ∧
    ((b.fetch_page pid).2.free_list = b.free_list) ∧
    ((b.fetch_page pid).2.disk = b.disk)
  | none =>
    match b.find_victim_page with
    | none => b.free_list = [] ∧ b.replacer = [] ∧ b.fetch_page pid = (none, b)
    | some (f, b1) =>
      (b.fetch_page pid).1 = some f ∧
      ((b.getPage f).id.page_no ≠ INVALID_PAGE_ID → (b.getPage f).is_dirty = true →
        (b.fetch_page pid).2.disk = writeDisk b.disk (b.getPage f).id (b.getPage f).data) ∧
      ((b.getPage f).id.page_no = INVALID_PAGE_ID ∨ (b.getPage f).is_dirty = false →
        (b.fetch_page pid).2.disk = b.disk) ∧
      ((b.fetch_page pid).2.page_table =
        ptInsert
          (if (b.getPage f).id.page_no ≠ INVALID_PAGE_ID then ptErase b.page_table (b.getPage f).id
           else b.page_table)
          pid f) ∧
      (ptLookup (b.fetch_page pid).2.page_table pid = some f) ∧
      (f < b.pages.length →
        (b.fetch_page pid).2.getPage f =
          { id := pid, pin_count := 1, is_dirty := false,
            data := (b.fetch_page pid).2.disk pid }) ∧
      (b.replacer.Nodup → f ∉ (b.fetch_page pid).2.replacer) ∧
      ((b.fetch_page pid).2.free_list = b1.free_list)

/-- The C8 description of `unpin_page`: absent page or non-positive pin count
fail without any state change; otherwise decrement the pin count, OR the
dirty argument into the dirty flag, and hand the frame to the replacer
exactly when the pin count reaches zero. -/
def unpin_page_spec (b : BufferPoolManager) (pid : PageId) (d : Bool) : Prop :=
  match ptLookup b.page_table pid with
  | none => b.unpin_page pid d = (false, b)
  | some f =>
    if (b.getPage f).pin_count ≤ 0 then b.unpin_page pid d = (false, b)
    else
      (b.unpin_page pid d).1 = true ∧
      ((b.unpin_page pid d).2.pages
          = b.pages.set f
              { b.getPage f with
                  pin_count := (b.getPage f).pin_count - 1
                  is_dirty := ((b.getPage f).is_dirty || d) }) ∧
      ((b.unpin_page pid d).2.replacer
          = if (b.getPage f).pin_count - 1 = 0 then LRUReplacer.unpinFrame b.replacer f
            else b.replacer) ∧
      ((b.unpin_page pid d).2.page_table = b.page_table) ∧
      ((b.unpin_page pid d).2.free_list = b.free_list) ∧
      ((b.unpin_page pid d).2.disk = b.disk)

/-- An all-zero disk image, used for concrete buffer-pool states. -/
def diskZero : PageId → PData := fun _ => resetData

/-- A reachable file state with one-record pages whose free-page-list head is
a full page.  Built from an empty file by: two inserts (filling pages 1 and
2), two deletes (free list becomes 2 → 1), a positional insert refilling
page 1 while it sits mid-list, and an insert that fills page 2 and advances
the head to the now-full page 1. -/
def c7state : RmFile :=
  (RmFileHandle.insert_record
    (RmFileHandle.insert_record_at
      (RmFileHandle.delete_record
        (RmFileHandle.delete_record
          (RmFileHandle.insert_record
            (RmFileHandle.insert_record (emptyFile 1 1 1) [5]).2 [6]).2
          ⟨1, 0⟩).2
        ⟨2, 0⟩).2
      ⟨1, 0⟩ [7]).2
    [8]).2

/-! ## Helper lemmas -/

theorem getD_set_self {α : Type _} (l : List α) (n : Nat) (v d : α) (h : n < l.length) :
    (l.set n v).getD n d = v := by
  simp [List.getD_eq_getElem?_getD, List.getElem?_set_self h]

theorem getD_set_ne {α : Type _} (l : List α) (n m : Nat) (v d : α) (h : n ≠ m) :
    (l.set n v).getD m d = l.getD m d := by
  simp [List.getD_eq_getElem?_getD, List.getElem?_set_ne h]

theorem scanFirstI_some (b : Bool) (bm : List Bool) :
    ∀ (fuel : Nat) (i j : Int), Bitmap.scanFirstI b bm fuel i = some j →
      i ≤ j ∧ j < i + fuel ∧ bm.getD j.toNat false = b := by
  intro fuel
  induction fuel with
  | zero => intro i j h; simp [Bitmap.scanFirstI] at h
  | succ k ih =>
    intro i j h
    unfold Bitmap.scanFirstI at h
    split at h
    · rename_i hb
      injection h with h'
      subst h'
      exact ⟨le_refl _, by omega, by simpa using hb⟩
    · rename_i hb
      obtain ⟨h1, h2, h3⟩ := ih (i + 1) j h
      exact ⟨by omega, by omega, h3⟩

theorem scanFirstI_none (b : Bool) (bm : List Bool) :
    ∀ (fuel : Nat) (i : Int),
      (∀ j : Int, i ≤ j → j < i + fuel → ¬ bm.getD j.toNat false = b) →
      Bitmap.scanFirstI b bm fuel i = none := by
  intro fuel
  induction fuel with
  | zero => intro i _; simp [Bitmap.scanFirstI]
  | succ k ih =>
    intro i hall
    unfold Bitmap.scanFirstI
    have hi : ¬ ((bm.getD i.toNat false == b) = true) := by
      simpa using hall i (le_refl _) (by omega)
    rw [if_neg hi]
    exact ih (i + 1) (fun j hj1 hj2 => hall j (by omega) (by omega))

/-- C1 (code bug evidence): from a fresh pool of one frame, a `new_page`
call whose `allocate_page` fails returns null but leaves frame 0 in neither
the free list nor the page table — the frame is leaked and the
exactly-one-of invariant is broken, although it held before the call. -/
theorem C1_new_page_alloc_failure_breaks_frame_invariant :
    BufferPoolManager.frameInvariant (BufferPoolManager.replay 1 diskZero []) ∧
    ¬ BufferPoolManager.frameInvariant
        (BufferPoolManager.replay 1 diskZero [.newp 0 none]) ∧
    (BufferPoolManager.replay 1 diskZero [.newp 0 none]).free_list = [] ∧
    (BufferPoolManager.replay 1 diskZero [.newp 0 none]).page_table = [] ∧
    ((BufferPoolManager.mkInit 1 diskZero).new_page 0 none).1 = none :=
  ⟨by decide, by decide, by decide, by decide, by decide⟩

/-- C8: `unpin_page` returns false and changes nothing when the page is
absent or its pin count is non-positive (and, being a total function, it
never panics); otherwise it decrements the pin count, ORs the dirty
argument into the dirty flag (never clearing it), hands the frame to the
replacer exactly when the pin count reaches zero, and returns true. -/
theorem C8_unpin_page_behavior (b : BufferPoolManager) (pid : PageId) (d : Bool) :
    unpin_page_spec b pid d := by
  unfold unpin_page_spec
  cases hpt : ptLookup b.page_table pid with
  | none => simp [BufferPoolManager.unpin_page, hpt]
  | some f =>
    by_cases hpc : (b.getPage f).pin_count ≤ 0
    · simp [BufferPoolManager.unpin_page, hpt, hpc]
    · by_cases hz : (b.getPage f).pin_count - 1 = 0 <;>
        cases d <;>
        simp [BufferPoolManager.unpin_page, hpt, hpc, hz, BufferPoolManager.setFrame]

/-- C6: deleting a record from a full page clears the slot bit, decrements
`num_records`, and releases the page to the head of the free-page list:
afterwards `first_free_page_no` is the page's number, the page's
`next_free_page_no` is the previous head, and the page is marked dirty. -/
theorem C6_delete_on_full_page_releases_to_head (s : RmFile) (rid : Rid)
    (h1 : RM_FIRST_RECORD_PAGE ≤ rid.page_no)
    (h2 : rid.page_no < s.file_hdr.num_pages)
    (h3 : 0 ≤ rid.slot_no)
    (h4 : rid.slot_no < s.file_hdr.num_records_per_page)
    (h5 : Bitmap.is_set (s.pages rid.page_no).bitmap rid.slot_no = true)
    (h6 : (s.pages rid.page_no).page_hdr.num_records = s.file_hdr.num_records_per_page) :
    (RmFileHandle.delete_record s rid).1 = .ok () ∧
    (RmFileHandle.delete_record s rid).2.file_hdr.first_free_page_no = rid.page_no ∧
    ((RmFileHandle.delete_record s rid).2.pages rid.page_no).page_hdr.next_free_page_no
      = s.file_hdr.first_free_page_no ∧
    ((RmFileHandle.delete_record s rid).2.pages rid.page_no).bitmap
      = Bitmap.resetBit (s.pages rid.page_no).bitmap rid.slot_no ∧
    ((RmFileHandle.delete_record s rid).2.pages rid.page_no).page_hdr.num_records
      = s.file_hdr.num_records_per_page - 1 ∧
    ((RmFileHandle.delete_record s rid).2.pages rid.page_no).dirty = true := by
  have hc1 : ¬ (rid.page_no ≤ RM_FILE_HDR_PAGE ∨ rid.page_no ≥ s.file_hdr.num_pages) := by
    simp only [RM_FILE_HDR_PAGE]
    simp only [RM_FIRST_RECORD_PAGE] at h1
    omega
  have hc2 : ¬ (rid.slot_no < 0 ∨ rid.slot_no ≥ s.file_hdr.num_records_per_page) := by
    omega
  have hfull : (s.pages rid.page_no).page_hdr.num_records = s.file_hdr.num_records_per_page ∧
      (s.pages rid.page_no).page_hdr.num_records - 1 < s.file_hdr.num_records_per_page :=
    ⟨h6, by omega⟩
  unfold RmFileHandle.delete_record
  rw [if_neg hc1, if_neg hc2]
  simp only [h5]
  rw [if_neg (by simp)]
  rw [if_pos hfull]
  unfold RmFileHandle.release_page_handle RmFile.setPage
  refine ⟨rfl, rfl, ?_, ?_, ?_, ?_⟩ <;> simp [h6]

/-- C10: positional insert is idempotent — on a valid rid (page in range,
slot in range, bitmap sized to the capacity) the call succeeds, and an
immediately repeated identical call returns the very same result and file
state: the second call rewrites the same slot bytes and changes nothing. -/
theorem C10_insert_record_at_idempotent (s : RmFile) (rid : Rid) (buf : List Int)
    (h1 : RM_FIRST_RECORD_PAGE ≤ rid.page_no)
    (h2 : rid.page_no < s.file_hdr.num_pages)
    (h3 : 0 ≤ rid.slot_no)
    (h4 : rid.slot_no < s.file_hdr.num_records_per_page)
    (hlen : (s.pages rid.page_no).bitmap.length = s.file_hdr.num_records_per_page.toNat) :
    (RmFileHandle.insert_record_at s rid buf).1 = .ok () ∧
    RmFileHandle.insert_record_at (RmFileHandle.insert_record_at s rid buf).2 rid buf
      = RmFileHandle.insert_record_at s rid buf := by
  have hc1 : ¬ (rid.page_no ≤ RM_FILE_HDR_PAGE ∨ rid.page_no ≥ s.file_hdr.num_pages) := by
    simp only [RM_FILE_HDR_PAGE]
    simp only [RM_FIRST_RECORD_PAGE] at h1
    omega
  have hc2 : ¬ (rid.slot_no < 0 ∨ rid.slot_no ≥ s.file_hdr.num_records_per_page) := by
    omega
  have hslot : rid.slot_no.toNat < (s.pages rid.page_no).bitmap.length := by
    rw [hlen]; omega
  have hset2 :
      Bitmap.is_set (Bitmap.setBit (s.pages rid.page_no).bitmap rid.slot_no) rid.slot_no
        = true := by
    unfold Bitmap.is_set Bitmap.setBit
    exact getD_set_self _ _ _ _ hslot
  constructor
  · unfold RmFileHandle.insert_record_at
    rw [if_neg hc1, if_neg hc2]
  · by_cases hws : Bitmap.is_set (s.pages rid.page_no).bitmap rid.slot_no = true
    · simp only [RmFileHandle.insert_record_at, RmFile.setPage, if_neg hc1, if_neg hc2, hws,
        hset2, if_true, if_pos rfl]
      simp only [Prod.mk.injEq, RmFile.mk.injEq, true_and]
      funext q
      by_cases hq : q = rid.page_no <;> simp [hq, Bitmap.setBit, List.set_set]
    · simp only [RmFileHandle.insert_record_at, RmFile.setPage, if_neg hc1, if_neg hc2,
        Bool.not_eq_true] at hws ⊢
      simp only [hws, hset2, if_true, if_pos rfl, Bool.false_eq_true, if_false]
      simp only [Prod.mk.injEq, RmFile.mk.injEq, true_and]
      funext q
      by_cases hq : q = rid.page_no <;> simp [hq, Bitmap.setBit, List.set_set]

/-- Witness for C6: a one-slot-per-page file after one insert has page 1
full; deleting `(1,0)` makes page 1 the free-list head. -/
theorem C6_delete_on_full_page_releases_to_head_witness :
    Bitmap.is_set ((RmFileHandle.insert_record (emptyFile 1 1 1) [5]).2.pages 1).bitmap 0
      = true ∧
    ((RmFileHandle.insert_record (emptyFile 1 1 1) [5]).2.pages 1).page_hdr.num_records
      = (RmFileHandle.insert_record (emptyFile 1 1 1) [5]).2.file_hdr.num_records_per_page ∧
    (RmFileHandle.delete_record (RmFileHandle.insert_record (emptyFile 1 1 1) [5]).2
        ⟨1, 0⟩).2.file_hdr.first_free_page_no = 1 :=
  ⟨by decide, by decide,
    (C6_delete_on_full_page_releases_to_head
      (RmFileHandle.insert_record (emptyFile 1 1 1) [5]).2 ⟨1, 0⟩
      (by decide) (by decide) (by decide) (by decide) (by decide) (by decide)).2.1⟩

/-- Witness for C10: a repeated positional insert at `(1,1)` of a two-slot
file leaves exactly the state of the first call. -/
theorem C10_insert_record_at_idempotent_witness :
    (RmFileHandle.insert_record_at (RmFileHandle.insert_record (emptyFile 1 2 1) [3]).2
        ⟨1, 1⟩ [9]).1 = .ok () ∧
    RmFileHandle.insert_record_at
        (RmFileHandle.insert_record_at (RmFileHandle.insert_record (emptyFile 1 2 1) [3]).2
          ⟨1, 1⟩ [9]).2 ⟨1, 1⟩ [9]
      = RmFileHandle.insert_record_at (RmFileHandle.insert_record (emptyFile 1 2 1) [3]).2
          ⟨1, 1⟩ [9] :=
  C10_insert_record_at_idempotent (RmFileHandle.insert_record (emptyFile 1 2 1) [3]).2
    ⟨1, 1⟩ [9] (by decide) (by decide) (by decide) (by decide) (by decide)

theorem ptLookup_ptInsert_self (pt : List (PageId × Nat)) (pid : PageId) (f : Nat) :
    ptLookup (ptInsert pt pid f) pid = some f := by
  simp [ptLookup, ptInsert, List.find?]

theorem update_page_facts (b : BufferPoolManager) (f : Nat) (pid : PageId)
    (hpid : pid.page_no ≠ INVALID_PAGE_ID) :
    ((b.getPage f).id.page_no ≠ INVALID_PAGE_ID → (b.getPage f).is_dirty = true →
      (b.update_page f pid).disk = writeDisk b.disk (b.getPage f).id (b.getPage f).data) ∧
    ((b.getPage f).id.page_no = INVALID_PAGE_ID ∨ (b.getPage f).is_dirty = false →
      (b.update_page f pid).disk = b.disk) ∧
    ((b.update_page f pid).page_table =
      ptInsert
        (if (b.getPage f).id.page_no ≠ INVALID_PAGE_ID then ptErase b.page_table (b.getPage f).id
         else b.page_table)
        pid f) ∧
    ((b.update_page f pid).replacer = b.replacer) ∧
    ((b.update_page f pid).free_list = b.free_list) ∧
    ((b.update_page f pid).pages.length = b.pages.length) ∧
    (f < b.pages.length →
      ((b.update_page f pid).getPage f).id = pid ∧
      ((b.update_page f pid).getPage f).data = resetData) := by
  refine ⟨fun h1 h2 => ?_, fun h => ?_, ?_, ?_, ?_, ?_, fun hf => ?_⟩
  · simp only [BufferPoolManager.update_page]
    split_ifs <;> simp_all [BufferPoolManager.setFrame]
  · simp only [BufferPoolManager.update_page]
    split_ifs <;> simp_all [BufferPoolManager.setFrame]
  · simp only [BufferPoolManager.update_page]
    split_ifs <;> simp_all [BufferPoolManager.setFrame]
  · simp only [BufferPoolManager.update_page]
    split_ifs <;> simp_all [BufferPoolManager.setFrame]
  · simp only [BufferPoolManager.update_page]
    split_ifs <;> simp_all [BufferPoolManager.setFrame]
  · simp only [BufferPoolManager.update_page]
    split_ifs <;> simp_all [BufferPoolManager.setFrame]
  · simp only [BufferPoolManager.update_page]
    split_ifs <;>
      constructor <;>
        simp_all [BufferPoolManager.setFrame, BufferPoolManager.getPage, List.set_set,
          List.getD_eq_getElem?_getD, List.getElem?_set_self]

theorem fetch_miss_case (b : BufferPoolManager) (pid : PageId) (f : Nat)
    (b1 : BufferPoolManager)
    (hpid : pid.page_no ≠ INVALID_PAGE_ID)
    (hpt : ptLookup b.page_table pid = none)
    (hv : b.find_victim_page = some (f, b1))
    (hpg : b1.pages = b.pages)
    (htb : b1.page_table = b.page_table)
    (hdk : b1.disk = b.disk)
    (hrepnd : b.replacer.Nodup → b1.replacer.Nodup) :
    (b.fetch_page pid).1 = some f ∧
    ((b.getPage f).id.page_no ≠ INVALID_PAGE_ID → (b.getPage f).is_dirty = true →
      (b.fetch_page pid).2.disk = writeDisk b.disk (b.getPage f).id (b.getPage f).data) ∧
    ((b.getPage f).id.page_no = INVALID_PAGE_ID ∨ (b.getPage f).is_dirty = false →
      (b.fetch_page pid).2.disk = b.disk) ∧
    ((b.fetch_page pid).2.page_table =
      ptInsert
        (if (b.getPage f).id.page_no ≠ INVALID_PAGE_ID then ptErase b.page_table (b.getPage f).id
         else b.page_table)
        pid f) ∧
    (ptLookup (b.fetch_page pid).2.page_table pid = some f) ∧
    (f < b.pages.length →
      (b.fetch_page pid).2.getPage f =
        { id := pid, pin_count := 1, is_dirty := false,
          data := (b.fetch_page pid).2.disk pid }) ∧
    (b.replacer.Nodup → f ∉ (b.fetch_page pid).2.replacer) ∧
    ((b.fetch_page pid).2.free_list = b1.free_list) := by
  obtain ⟨hd1, hd2, hpt', hrep', hfl', hlen', hgot⟩ := update_page_facts b1 f pid hpid
  have hgp : b1.getPage f = b.getPage f := by
    unfold BufferPoolManager.getPage; rw [hpg]
  rw [hgp] at hd1 hd2 hpt'
  rw [hdk] at hd1 hd2
  rw [htb] at hpt'
  have hfe : b.fetch_page pid =
      (some f,
        { ((b1.update_page f pid).setFrame f
            { (b1.update_page f pid).getPage f with
                data := (b1.update_page f pid).disk pid, pin_count := 1, is_dirty := false }) with
            replacer := LRUReplacer.pinFrame
              ((b1.update_page f pid).setFrame f
                { (b1.update_page f pid).getPage f with
                    data := (b1.update_page f pid).disk pid, pin_count := 1,
                    is_dirty := false }).replacer f }) := by
    simp only [BufferPoolManager.fetch_page, hpt, hv]
  refine ⟨?_, fun h1 h2 => ?_, fun h => ?_, ?_, ?_, fun hflen => ?_, fun hnd => ?_, ?_⟩
  · rw [hfe]
  · rw [hfe]
    simp only [BufferPoolManager.setFrame]
    exact hd1 h1 h2
  · rw [hfe]
    simp only [BufferPoolManager.setFrame]
    exact hd2 h
  · rw [hfe]
    simp only [BufferPoolManager.setFrame]
    exact hpt'
  · rw [hfe]
    simp only [BufferPoolManager.setFrame]
    rw [hpt']
    exact ptLookup_ptInsert_self _ _ _
  · rw [hfe]
    have hflen1 : f < b1.pages.length := by rw [hpg]; exact hflen
    have hid := (hgot hflen1).1
    have hlt : f < (b1.update_page f pid).pages.length := by
      rw [hlen', hpg]; exact hflen
    unfold BufferPoolManager.getPage BufferPoolManager.setFrame
    simp only [List.getD_eq_getElem?_getD, List.getElem?_set_self hlt, Option.getD_some]
    unfold BufferPoolManager.getPage at hid
    simp only [List.getD_eq_getElem?_getD] at hid
    simp [hid]
  · rw [hfe]
    simp only [BufferPoolManager.setFrame]
    rw [hrep']
    unfold LRUReplacer.pinFrame
    exact ((hrepnd hnd).not_mem_erase)
  · rw [hfe]
    simp only [BufferPoolManager.setFrame]
    exact hfl'

/-- C2: the full behaviour of `fetch_page`, exactly as the claim describes
it: a page-table hit pins the frame, removes it from the replacer and
returns it with no other state change; a miss obtains a victim (free list
first, else replacer), writes the victim's contents back exactly when it
was bound and dirty, drops the victim's old page-table entry, resets the
frame, inserts the new entry, reads the on-disk page into the frame, sets
`pin_count = 1` and `dirty = false`, and keeps the frame out of the
replacer; with no free frame and no unpinned frame it returns a null
result and changes nothing. -/
theorem C2_fetch_page_behavior (b : BufferPoolManager) (pid : PageId)
    (hpid : pid.page_no ≠ INVALID_PAGE_ID) : fetch_page_spec b pid := by
  unfold fetch_page_spec
  cases hpt : ptLookup b.page_table pid with
  | some f =>
    refine ⟨?_, ?_, ?_, fun hnd => ?_, ?_, ?_, ?_⟩ <;>
      simp [BufferPoolManager.fetch_page, hpt, BufferPoolManager.setFrame, LRUReplacer.pinFrame]
    exact hnd.not_mem_erase
  | none =>
    cases hv : b.find_victim_page with
    | none =>
      have hfl : b.free_list = [] := by
        unfold BufferPoolManager.find_victim_page at hv
        cases hfll : b.free_list with
        | nil => rfl
        | cons x xs => rw [hfll] at hv; exact absurd hv (by simp)
      have hrep : b.replacer = [] := by
        unfold BufferPoolManager.find_victim_page at hv
        rw [hfl] at hv
        cases hgl : b.replacer.getLast? with
        | none => exact List.getLast?_eq_none_iff.mp hgl
        | some x =>
          rw [LRUReplacer.victim, hgl] at hv
          exact absurd hv (by simp)
      exact ⟨hfl, hrep, by simp [BufferPoolManager.fetch_page, hpt, hv]⟩
    | some fb =>
      obtain ⟨f, b1⟩ := fb
      have hb1 : b1.pages = b.pages ∧ b1.page_table = b.page_table ∧ b1.disk = b.disk ∧
          (b1.replacer = b.replacer ∨ b1.replacer = b.replacer.dropLast) := by
        unfold BufferPoolManager.find_victim_page at hv
        cases hfll : b.free_list with
        | cons x xs =>
          rw [hfll] at hv
          injection hv with hv'
          injection hv' with hf hb
          rw [← hb]
          exact ⟨rfl, rfl, rfl, Or.inl rfl⟩
        | nil =>
          rw [hfll] at hv
          cases hgl : b.replacer.getLast? with
          | none =>
            rw [LRUReplacer.victim, hgl] at hv
            exact absurd hv (by simp)
          | some x =>
            rw [LRUReplacer.victim, hgl] at hv
            injection hv with hv'
            injection hv' with hf hb
            rw [← hb]
            exact ⟨rfl, rfl, rfl, Or.inr rfl⟩
      obtain ⟨hpg, htb, hdk, hrepor⟩ := hb1
      have hrepnd : b.replacer.Nodup → b1.replacer.Nodup := by
        intro hnd
        cases hrepor with
        | inl h => rw [h]; exact hnd
        | inr h => rw [h]; exact (List.dropLast_sublist _).nodup hnd
      exact fetch_miss_case b pid f b1 hpid hpt hv hpg htb hdk hrepnd

/-- Witness for C2 at a concrete pool and page id (miss with a free frame). -/
theorem C2_fetch_page_behavior_witness :
    (⟨0, 3⟩ : PageId).page_no ≠ INVALID_PAGE_ID ∧
    fetch_page_spec (BufferPoolManager.mkInit 2 diskZero) ⟨0, 3⟩ :=
  ⟨by decide, C2_fetch_page_behavior (BufferPoolManager.mkInit 2 diskZero) ⟨0, 3⟩ (by decide)⟩

theorem getD_eq_getElem {α : Type _} (l : List α) (n : Nat) (d : α) (h : n < l.length) :
    l.getD n d = l[n] := by
  simp [List.getD_eq_getElem?_getD, List.getElem?_eq_getElem h]

theorem count_true_set_true_of_false (l : List Bool) (n : Nat) (h : n < l.length)
    (hf : l.getD n false = false) :
    (l.set n true).count true = l.count true + 1 := by
  have hg : l[n] = false := by rw [← getD_eq_getElem l n false h]; exact hf
  rw [List.count_set _ _ _ _ h]
  simp [hg]

theorem count_true_set_true_of_true (l : List Bool) (n : Nat) (h : n < l.length)
    (ht : l.getD n false = true) :
    (l.set n true).count true = l.count true := by
  have hg : l[n] = true := by rw [← getD_eq_getElem l n false h]; exact ht
  have hpos : 0 < l.count true := by
    apply List.count_pos_iff.mpr
    rw [← hg]
    exact List.getElem_mem h
  rw [List.count_set _ _ _ _ h]
  simp [hg]
  omega

theorem count_true_set_false_of_true (l : List Bool) (n : Nat) (h : n < l.length)
    (ht : l.getD n false = true) :
    (l.set n false).count true + 1 = l.count true := by
  have hg : l[n] = true := by rw [← getD_eq_getElem l n false h]; exact ht
  have hpos : 0 < l.count true := by
    apply List.count_pos_iff.mpr
    rw [← hg]
    exact List.getElem_mem h
  rw [List.count_set _ _ _ _ h]
  simp [hg]
  omega

theorem countInv_congr (s t : RmFile) (hp : t.pages = s.pages)
    (hn : t.file_hdr.num_pages = s.file_hdr.num_pages) (h : s.countInv) : t.countInv := by
  intro p h1 h2
  rw [hp]
  exact h p h1 (by rw [← hn]; exact h2)

theorem countInv_setPage (s : RmFile) (p : Int) (pg : RmPage)
    (hinv : s.countInv) (hpg : pg.countOk) : (s.setPage p pg).countInv := by
  intro q h1 h2
  simp only [RmFile.setPage] at h2 ⊢
  by_cases hq : q = p
  · simpa [hq] using hpg
  · simp only [if_neg hq]
    exact hinv q h1 h2

theorem create_page_handle_cases (s : RmFile) (p : Int) (s1 : RmFile)
    (h : RmFileHandle.create_page_handle s = .ok (p, s1)) :
    (s.file_hdr.first_free_page_no ≠ RM_NO_PAGE ∧ p = s.file_hdr.first_free_page_no ∧
      RM_FILE_HDR_PAGE < p ∧ p < s.file_hdr.num_pages ∧ s1 = s) ∨
    (s.file_hdr.first_free_page_no = RM_NO_PAGE ∧ p = s.file_hdr.num_pages ∧
      s1 = (RmFileHandle.create_new_page_handle s).2) := by
  unfold RmFileHandle.create_page_handle at h
  by_cases h1 : s.file_hdr.first_free_page_no ≠ RM_NO_PAGE
  · by_cases h2 : s.file_hdr.first_free_page_no ≤ RM_FILE_HDR_PAGE ∨
        s.file_hdr.first_free_page_no ≥ s.file_hdr.num_pages
    · rw [if_pos h1, if_pos h2] at h
      exact absurd h (by simp)
    · rw [if_pos h1, if_neg h2] at h
      left
      injection h with h'
      injection h' with hp hs
      push_neg at h2
      simp only [RM_FILE_HDR_PAGE] at h2
      refine ⟨h1, hp.symm, ?_, ?_, hs.symm⟩
      · simp only [RM_FILE_HDR_PAGE]; omega
      · omega
  · rw [if_neg h1] at h
    right
    injection h with h'
    injection h' with hp hs
    push_neg at h1
    exact ⟨h1, hp.symm, hs.symm⟩

theorem create_new_page_facts (s : RmFile) :
    (RmFileHandle.create_new_page_handle s).1 = s.file_hdr.num_pages ∧
    (RmFileHandle.create_new_page_handle s).2.file_hdr.num_pages
      = s.file_hdr.num_pages + 1 ∧
    (RmFileHandle.create_new_page_handle s).2.file_hdr.num_records_per_page
      = s.file_hdr.num_records_per_page ∧
    (RmFileHandle.create_new_page_handle s).2.file_hdr.first_free_page_no
      = s.file_hdr.first_free_page_no ∧
    (RmFileHandle.create_new_page_handle s).2.file_hdr.record_size
      = s.file_hdr.record_size ∧
    (RmFileHandle.create_new_page_handle s).2.file_hdr.bitmap_size
      = s.file_hdr.bitmap_size ∧
    ((RmFileHandle.create_new_page_handle s).2.pages s.file_hdr.num_pages
      = { page_hdr := { num_records := 0, next_free_page_no := RM_NO_PAGE }
          bitmap := List.replicate s.file_hdr.num_records_per_page.toNat false
          slots := List.replicate s.file_hdr.num_records_per_page.toNat
            (List.replicate s.file_hdr.record_size.toNat 0)
          dirty := true }) ∧
    (∀ q : Int, q ≠ s.file_hdr.num_pages →
      (RmFileHandle.create_new_page_handle s).2.pages q = s.pages q) := by
  refine ⟨rfl, ?_, rfl, rfl, rfl, rfl, ?_, ?_⟩
  · simp [RmFileHandle.create_new_page_handle]
  · simp [RmFileHandle.create_new_page_handle, RmFile.setPage]
  · intro q hq
    simp [RmFileHandle.create_new_page_handle, RmFile.setPage, hq]

theorem insert_into_countInv (s1 : RmFile) (p : Int) (buf : List Int)
    (hinv1 : s1.countInv)
    (hbl : (s1.pages p).bitmap.length = s1.file_hdr.num_records_per_page.toNat)
    (hp1 : RM_FIRST_RECORD_PAGE ≤ p) (hp2 : p < s1.file_hdr.num_pages) :
    (RmFileHandle.insert_into s1 p buf).2.countInv := by
  unfold RmFileHandle.insert_into
  by_cases hg : Bitmap.first_bit false (s1.pages p).bitmap s1.file_hdr.num_records_per_page
      = s1.file_hdr.num_records_per_page ∨
      (s1.pages p).page_hdr.num_records ≥ s1.file_hdr.num_records_per_page
  · simp only [if_pos hg]
    exact hinv1
  · simp only [if_neg hg]
    push_neg at hg
    cases hsc : Bitmap.scanFirstI false (s1.pages p).bitmap
        s1.file_hdr.num_records_per_page.toNat 0 with
    | none =>
      refine absurd ?_ hg.1
      unfold Bitmap.first_bit
      rw [hsc]
    | some i =>
      have hfb : Bitmap.first_bit false (s1.pages p).bitmap s1.file_hdr.num_records_per_page
          = i := by
        unfold Bitmap.first_bit
        rw [hsc]
      obtain ⟨hi0, hilt, hibit⟩ := scanFirstI_some false _ _ _ _ hsc
      rw [hfb]
      have hlen : i.toNat < (s1.pages p).bitmap.length := by rw [hbl]; omega
      have hnew : RmPage.countOk
          { s1.pages p with
              slots := (s1.pages p).slots.set i.toNat buf
              bitmap := Bitmap.setBit (s1.pages p).bitmap i
              page_hdr := { (s1.pages p).page_hdr with
                num_records := (s1.pages p).page_hdr.num_records + 1 }
              dirty := true } := by
        have hold := hinv1 p hp1 hp2
        unfold RmPage.countOk at hold ⊢
        simp only [Bitmap.setBit]
        rw [count_true_set_true_of_false _ _ hlen hibit]
        rw [hold]
        push_cast
        ring
      have hs2 := countInv_setPage s1 p _ hinv1 hnew
      split_ifs <;> exact hs2

theorem insert_record_countInv (s : RmFile) (buf : List Int)
    (hwf : s.wf) (hinv : s.countInv) :
    (RmFileHandle.insert_record s buf).2.countInv := by
  obtain ⟨hnp, hnpp, hrs, hbl, hsl⟩ := hwf
  unfold RmFileHandle.insert_record
  cases hcp : RmFileHandle.create_page_handle s with
  | error e => exact hinv
  | ok ps =>
    obtain ⟨p, s1⟩ := ps
    rcases create_page_handle_cases s p s1 hcp with
      ⟨hff, hp, hp0, hplt, hs1⟩ | ⟨hff, hp, hs1⟩
    · rw [hs1]
      refine insert_into_countInv s p buf hinv (hbl p) ?_ hplt
      simp only [RM_FIRST_RECORD_PAGE]
      simp only [RM_FILE_HDR_PAGE] at hp0
      omega
    · subst hs1
      obtain ⟨hcn1, hcn2, hcn3, hcn4, hcn5, hcn8, hcn6, hcn7⟩ := create_new_page_facts s
      subst hp
      refine insert_into_countInv _ _ buf ?_ ?_ ?_ ?_
      · intro q hq1 hq2
        by_cases hq : q = s.file_hdr.num_pages
        · rw [hq, hcn6]
          unfold RmPage.countOk
          simp [List.count_replicate]
        · rw [hcn7 q hq]
          refine hinv q hq1 ?_
          rw [hcn2] at hq2
          omega
      · rw [hcn6, hcn3]
        simp
      · simp only [RM_FIRST_RECORD_PAGE]
        omega
      · rw [hcn2]
        omega

theorem insert_record_at_countInv (s : RmFile) (rid : Rid) (buf : List Int)
    (hwf : s.wf) (hinv : s.countInv) :
    (RmFileHandle.insert_record_at s rid buf).2.countInv := by
  obtain ⟨hnp, hnpp, hrs, hbl, hsl⟩ := hwf
  unfold RmFileHandle.insert_record_at
  by_cases hc1 : rid.page_no ≤ RM_FILE_HDR_PAGE ∨ rid.page_no ≥ s.file_hdr.num_pages
  · simp only [if_pos hc1]
    exact hinv
  · simp only [if_neg hc1]
    by_cases hc2 : rid.slot_no < 0 ∨ rid.slot_no ≥ s.file_hdr.num_records_per_page
    · simp only [if_pos hc2]
      exact hinv
    · simp only [if_neg hc2]
      push_neg at hc1 hc2
      simp only [RM_FILE_HDR_PAGE] at hc1
      have hp1 : RM_FIRST_RECORD_PAGE ≤ rid.page_no := by
        simp only [RM_FIRST_RECORD_PAGE]; omega
      have hlen : rid.slot_no.toNat < (s.pages rid.page_no).bitmap.length := by
        rw [hbl]; omega
      have hold := hinv rid.page_no hp1 hc1.2
      by_cases hws : Bitmap.is_set (s.pages rid.page_no).bitmap rid.slot_no = true
      · simp only [hws, if_pos]
        apply countInv_setPage s rid.page_no _ hinv
        unfold RmPage.countOk at hold ⊢
        simp only [Bitmap.setBit]
        rw [count_true_set_true_of_true _ _ hlen hws]
        exact hold
      · simp only [Bool.not_eq_true] at hws
        simp only [hws, Bool.false_eq_true, if_false]
        apply countInv_setPage s rid.page_no _ hinv
        have hbit : (s.pages rid.page_no).bitmap.getD rid.slot_no.toNat false = false := by
          simpa [Bitmap.is_set] using hws
        unfold RmPage.countOk at hold ⊢
        simp only [Bitmap.setBit]
        rw [count_true_set_true_of_false _ _ hlen hbit]
        rw [hold]
        push_cast
        ring

theorem delete_record_countInv (s : RmFile) (rid : Rid)
    (hwf : s.wf) (hinv : s.countInv) :
    (RmFileHandle.delete_record s rid).2.countInv := by
  obtain ⟨hnp, hnpp, hrs, hbl, hsl⟩ := hwf
  unfold RmFileHandle.delete_record
  by_cases hc1 : rid.page_no ≤ RM_FILE_HDR_PAGE ∨ rid.page_no ≥ s.file_hdr.num_pages
  · simp only [if_pos hc1]
    exact hinv
  · simp only [if_neg hc1]
    by_cases hc2 : rid.slot_no < 0 ∨ rid.slot_no ≥ s.file_hdr.num_records_per_page
    · simp only [if_pos hc2]
      exact hinv
    · simp only [if_neg hc2]
      by_cases hws : Bitmap.is_set (s.pages rid.page_no).bitmap rid.slot_no = true
      · simp only [hws]
        rw [if_neg (by simp)]
        push_neg at hc1 hc2
        simp only [RM_FILE_HDR_PAGE] at hc1
        have hp1 : RM_FIRST_RECORD_PAGE ≤ rid.page_no := by
          simp only [RM_FIRST_RECORD_PAGE]; omega
        have hlen : rid.slot_no.toNat < (s.pages rid.page_no).bitmap.length := by
          rw [hbl]; omega
        have hold := hinv rid.page_no hp1 hc1.2
        have hafter : RmPage.countOk
            { s.pages rid.page_no with
                bitmap := Bitmap.resetBit (s.pages rid.page_no).bitmap rid.slot_no
                page_hdr := { (s.pages rid.page_no).page_hdr with
                  num_records := (s.pages rid.page_no).page_hdr.num_records - 1 }
                dirty := true } := by
          unfold RmPage.countOk at hold ⊢
          simp only [Bitmap.resetBit]
          have := count_true_set_false_of_true _ _ hlen hws
          rw [hold]
          omega
        have hs1 := countInv_setPage s rid.page_no _ hinv hafter
        split_ifs with hrel
        · -- release path
          unfold RmFileHandle.release_page_handle
          apply countInv_congr _ _ rfl rfl
          apply countInv_setPage _ _ _ hs1
          -- the released page keeps its bitmap and num_records
          have hcur := hs1 rid.page_no hp1 (by simpa [RmFile.setPage] using hc1.2)
          unfold RmPage.countOk at hcur ⊢
          simpa using hcur
        · exact hs1
      · simp only [Bool.not_eq_true] at hws
        simp only [hws]
        rw [if_pos (by simp)]
        exact hinv

theorem update_record_countInv (s : RmFile) (rid : Rid) (buf : List Int)
    (hinv : s.countInv) :
    (RmFileHandle.update_record s rid buf).2.countInv := by
  unfold RmFileHandle.update_record
  by_cases hc1 : rid.page_no ≤ RM_FILE_HDR_PAGE ∨ rid.page_no ≥ s.file_hdr.num_pages
  · simp only [if_pos hc1]
    exact hinv
  · simp only [if_neg hc1]
    by_cases hc2 : rid.slot_no < 0 ∨ rid.slot_no ≥ s.file_hdr.num_records_per_page
    · simp only [if_pos hc2]
      exact hinv
    · simp only [if_neg hc2]
      by_cases hws : Bitmap.is_set (s.pages rid.page_no).bitmap rid.slot_no = true
      · simp only [hws]
        rw [if_neg (by simp)]
        push_neg at hc1
        simp only [RM_FILE_HDR_PAGE] at hc1
        have hp1 : RM_FIRST_RECORD_PAGE ≤ rid.page_no := by
          simp only [RM_FIRST_RECORD_PAGE]; omega
        apply countInv_setPage s rid.page_no _ hinv
        have hold := hinv rid.page_no hp1 hc1.2
        unfold RmPage.countOk at hold ⊢
        simpa using hold
      · simp only [Bool.not_eq_true] at hws
        simp only [hws]
        rw [if_pos (by simp)]
        exact hinv

/-- C5: every record-layer operation — `insert_record(buf)`, positional
`insert_record(rid, buf)`, `delete_record` and `update_record` — preserves
the invariant that each data page's `num_records` equals the population
count of its slot bitmap over `[0, num_records_per_page)`. -/
theorem C5_record_ops_preserve_count_invariant (s : RmFile)
    (hwf : s.wf) (hinv : s.countInv) :
    (∀ buf, (RmFileHandle.insert_record s buf).2.countInv) ∧
    (∀ rid buf, (RmFileHandle.insert_record_at s rid buf).2.countInv) ∧
    (∀ rid, (RmFileHandle.delete_record s rid).2.countInv) ∧
    (∀ rid buf, (RmFileHandle.update_record s rid buf).2.countInv) :=
  ⟨fun buf => insert_record_countInv s buf hwf hinv,
   fun rid buf => insert_record_at_countInv s rid buf hwf hinv,
   fun rid => delete_record_countInv s rid hwf hinv,
   fun rid buf => update_record_countInv s rid buf hinv⟩

/-- Witness for C5 on a concrete fresh file. -/
theorem C5_record_ops_preserve_count_invariant_witness :
    (emptyFile 1 2 1).wf ∧ (emptyFile 1 2 1).countInv ∧
    (RmFileHandle.insert_record (emptyFile 1 2 1) [7]).2.countInv ∧
    (RmFileHandle.delete_record (emptyFile 1 2 1) ⟨1, 0⟩).2.countInv := by
  have hwf : (emptyFile 1 2 1).wf := by
    refine ⟨by decide, by decide, by decide, ?_, ?_⟩ <;>
      intro p <;> simp [emptyFile, emptyPage]
  have hinv : (emptyFile 1 2 1).countInv := by
    intro p h1 h2
    simp only [RM_FIRST_RECORD_PAGE] at h1
    simp only [emptyFile] at h2
    omega
  obtain ⟨ha, hb, hc, hd⟩ := C5_record_ops_preserve_count_invariant (emptyFile 1 2 1) hwf hinv
  exact ⟨hwf, hinv, ha [7], hc ⟨1, 0⟩⟩

theorem get_record_congr (s t : RmFile) (rid : Rid) (hp : t.pages = s.pages)
    (hh : t.file_hdr.num_pages = s.file_hdr.num_pages)
    (hnpp : t.file_hdr.num_records_per_page = s.file_hdr.num_records_per_page) :
    RmFileHandle.get_record t rid = RmFileHandle.get_record s rid := by
  unfold RmFileHandle.get_record
  rw [hp, hh, hnpp]

theorem insert_into_get (s1 : RmFile) (p : Int) (buf : List Int) (r : Rid)
    (hp1 : RM_FIRST_RECORD_PAGE ≤ p) (hp2 : p < s1.file_hdr.num_pages)
    (hbl : (s1.pages p).bitmap.length = s1.file_hdr.num_records_per_page.toNat)
    (hsl : (s1.pages p).slots.length = s1.file_hdr.num_records_per_page.toNat)
    (hok : (RmFileHandle.insert_into s1 p buf).1 = .ok r) :
    RmFileHandle.get_record (RmFileHandle.insert_into s1 p buf).2 r = .ok buf := by
  unfold RmFileHandle.insert_into at hok ⊢
  by_cases hg : Bitmap.first_bit false (s1.pages p).bitmap s1.file_hdr.num_records_per_page
      = s1.file_hdr.num_records_per_page ∨
      (s1.pages p).page_hdr.num_records ≥ s1.file_hdr.num_records_per_page
  · rw [if_pos hg] at hok
    exact absurd hok (by simp)
  · rw [if_neg hg] at hok ⊢
    push_neg at hg
    cases hsc : Bitmap.scanFirstI false (s1.pages p).bitmap
        s1.file_hdr.num_records_per_page.toNat 0 with
    | none =>
      refine absurd ?_ hg.1
      unfold Bitmap.first_bit
      rw [hsc]
    | some i =>
      have hfb : Bitmap.first_bit false (s1.pages p).bitmap s1.file_hdr.num_records_per_page
          = i := by
        unfold Bitmap.first_bit
        rw [hsc]
      obtain ⟨hi0, hilt, hibit⟩ := scanFirstI_some false _ _ _ _ hsc
      rw [hfb] at hok ⊢
      have hnppos : 1 ≤ s1.file_hdr.num_records_per_page := by omega
      have hiltn : i < s1.file_hdr.num_records_per_page := by omega
      have hitn : i.toNat < (s1.pages p).bitmap.length := by rw [hbl]; omega
      have hits : i.toNat < (s1.pages p).slots.length := by rw [hsl]; omega
      simp only at hok
      injection hok with hr
      subst hr
      have hmain : RmFileHandle.get_record (s1.setPage p
          { s1.pages p with
              slots := (s1.pages p).slots.set i.toNat buf
              bitmap := Bitmap.setBit (s1.pages p).bitmap i
              page_hdr := { (s1.pages p).page_hdr with
                num_records := (s1.pages p).page_hdr.num_records + 1 }
              dirty := true }) ⟨p, i⟩ = .ok buf := by
        unfold RmFileHandle.get_record RmFile.setPage
        rw [if_neg (by
          simp only [RM_FILE_HDR_PAGE]
          simp only [RM_FIRST_RECORD_PAGE] at hp1
          omega)]
        simp only [if_pos rfl, if_true, Bitmap.is_set, Bitmap.setBit]
        rw [if_neg (by omega)]
        rw [if_neg (by
          rw [getD_set_self _ _ _ _ hitn]
          simp)]
        rw [getD_set_self _ _ _ _ hits]
      dsimp only
      split_ifs
      · exact (get_record_congr _ _ _ rfl rfl rfl).trans hmain
      · exact hmain
      · exact hmain

/-- C3: the round trip — if `insert_record(buf)` on a well-formed file
succeeds with rid `r`, then `get_record(r)` on the post-state returns the
inserted bytes unchanged. -/
theorem C3_insert_then_get_round_trip (s : RmFile) (buf : List Int) (r : Rid)
    (hwf : s.wf)
    (_hbuf : buf.length = s.file_hdr.record_size.toNat)
    (hok : (RmFileHandle.insert_record s buf).1 = .ok r) :
    RmFileHandle.get_record (RmFileHandle.insert_record s buf).2 r = .ok buf := by
  obtain ⟨hnp, hnpp, hrs, hbl, hsl⟩ := hwf
  cases hcp : RmFileHandle.create_page_handle s with
  | error e =>
    have hir : RmFileHandle.insert_record s buf = (.error e, s) := by
      unfold RmFileHandle.insert_record
      rw [hcp]
    rw [hir] at hok
    exact absurd hok (by simp)
  | ok ps =>
    obtain ⟨p, s1⟩ := ps
    have hir : RmFileHandle.insert_record s buf = RmFileHandle.insert_into s1 p buf := by
      unfold RmFileHandle.insert_record
      rw [hcp]
    rw [hir] at hok ⊢
    rcases create_page_handle_cases s p s1 hcp with
      ⟨hff, hp, hp0, hplt, hs1⟩ | ⟨hff, hp, hs1⟩
    · rw [hs1] at hok ⊢
      refine insert_into_get s p buf r ?_ hplt (hbl p) (hsl p) hok
      simp only [RM_FIRST_RECORD_PAGE]
      simp only [RM_FILE_HDR_PAGE] at hp0
      omega
    · obtain ⟨hcn1, hcn2, hcn3, hcn4, hcn5, hcn8, hcn6, hcn7⟩ := create_new_page_facts s
      rw [hs1] at hok ⊢
      subst hp
      refine insert_into_get _ _ buf r ?_ ?_ ?_ ?_ hok
      · simp only [RM_FIRST_RECORD_PAGE]
        omega
      · rw [hcn2]
        omega
      · rw [hcn6, hcn3]
        simp
      · rw [hcn6, hcn3]
        simp

/-- Witness for C3 on a concrete file and buffer. -/
theorem C3_insert_then_get_round_trip_witness :
    (emptyFile 1 2 1).wf ∧
    ([7] : List Int).length = (emptyFile 1 2 1).file_hdr.record_size.toNat ∧
    (RmFileHandle.insert_record (emptyFile 1 2 1) [7]).1 = .ok ⟨1, 0⟩ ∧
    RmFileHandle.get_record (RmFileHandle.insert_record (emptyFile 1 2 1) [7]).2 ⟨1, 0⟩
      = .ok [7] := by
  have hwf : (emptyFile 1 2 1).wf :=
    ⟨by decide, by decide, by decide,
     fun p => by simp [emptyFile, emptyPage],
     fun p => by simp [emptyFile, emptyPage]⟩
  exact ⟨hwf, by decide, by decide,
    C3_insert_then_get_round_trip (emptyFile 1 2 1) [7] ⟨1, 0⟩ hwf (by decide) (by decide)⟩

/-- C7 counterexample: at the reachable state `c7state` the free-page-list
head (page 1) is full, and `create_page_handle` returns it anyway — there
is no unset bit below the capacity in the returned page's bitmap — so the
following `insert_record` fails with the internal `RMDBError` instead of
finding a free slot. -/
theorem C7_counterexample_create_page_handle_returns_full_page :
    RmFileHandle.create_page_handle c7state = .ok (1, c7state) ∧
    c7state.file_hdr.first_free_page_no = 1 ∧
    (c7state.pages 1).page_hdr.num_records = c7state.file_hdr.num_records_per_page ∧
    Bitmap.first_bit false (c7state.pages 1).bitmap c7state.file_hdr.num_records_per_page
      = c7state.file_hdr.num_records_per_page ∧
    (RmFileHandle.insert_record c7state [9]).1 = .error .rmdbError := by
  refine ⟨?_, by decide, by decide, by decide, by decide⟩
  rfl

/-- C7 amended: `create_page_handle` does not re-check capacity — whenever
`first_free_page_no` names an in-range page it returns that page unchanged,
full or not; when that page is full, `insert_record` fails its sanity check
with the internal engine error (leaving the file unchanged) instead of
supplying a free slot. -/
theorem C7_amended_create_page_handle_trusts_head (s : RmFile) (buf : List Int)
    (h1 : s.file_hdr.first_free_page_no ≠ RM_NO_PAGE)
    (h2 : RM_FILE_HDR_PAGE < s.file_hdr.first_free_page_no)
    (h3 : s.file_hdr.first_free_page_no < s.file_hdr.num_pages)
    (hfull : (s.pages s.file_hdr.first_free_page_no).page_hdr.num_records
      ≥ s.file_hdr.num_records_per_page) :
    RmFileHandle.create_page_handle s = .ok (s.file_hdr.first_free_page_no, s) ∧
    RmFileHandle.insert_record s buf = (.error .rmdbError, s) := by
  have hcp : RmFileHandle.create_page_handle s
      = .ok (s.file_hdr.first_free_page_no, s) := by
    unfold RmFileHandle.create_page_handle
    rw [if_pos h1, if_neg (by simp only [RM_FILE_HDR_PAGE] at h2 ⊢; omega)]
  refine ⟨hcp, ?_⟩
  unfold RmFileHandle.insert_record
  rw [hcp]
  show RmFileHandle.insert_into s s.file_hdr.first_free_page_no buf = (.error .rmdbError, s)
  unfold RmFileHandle.insert_into
  rw [if_pos (Or.inr hfull)]

/-- Witness for the amended C7 at the concrete reachable state. -/
theorem C7_amended_create_page_handle_trusts_head_witness :
    c7state.file_hdr.first_free_page_no = 1 ∧
    (c7state.pages 1).page_hdr.num_records ≥ c7state.file_hdr.num_records_per_page ∧
    RmFileHandle.insert_record c7state [9] = (.error .rmdbError, c7state) :=
  ⟨by decide, by decide,
    (C7_amended_create_page_handle_trusts_head c7state [9]
      (by decide) (by decide) (by decide) (by decide)).2⟩

/-! ## Scan coverage over insert-only files (C4) -/

theorem getD_replicate_self {α : Type _} (k m : Nat) (a : α) :
    (List.replicate k a).getD m a = a := by
  induction k generalizing m with
  | zero => simp [List.getD_eq_getElem?_getD]
  | succ j ih =>
    cases m with
    | zero => simp [List.replicate_succ]
    | succ m' =>
      rw [List.replicate_succ]
      simpa using ih m'

theorem insert_record_on_no_free (s : RmFile) (buf : List Int)
    (hff : s.file_hdr.first_free_page_no = RM_NO_PAGE) :
    RmFileHandle.insert_record s buf
      = RmFileHandle.insert_into (RmFileHandle.create_new_page_handle s).2
          s.file_hdr.num_pages buf := by
  unfold RmFileHandle.insert_record RmFileHandle.create_page_handle
  rw [if_neg (by rw [hff]; simp)]
  rfl

theorem insert_into_fresh (t : RmFile) (p : Int) (buf : List Int)
    (hbm : (t.pages p).bitmap = List.replicate t.file_hdr.num_records_per_page.toNat false)
    (hnum : (t.pages p).page_hdr.num_records = 0)
    (hnpp : 1 ≤ t.file_hdr.num_records_per_page)
    (hfff : t.file_hdr.first_free_page_no ≠ p) :
    RmFileHandle.insert_into t p buf =
      (.ok ⟨p, 0⟩,
       t.setPage p
        { t.pages p with
            slots := (t.pages p).slots.set 0 buf
            bitmap := Bitmap.setBit (t.pages p).bitmap 0
            page_hdr := { (t.pages p).page_hdr with
              num_records := (t.pages p).page_hdr.num_records + 1 }
            dirty := true }) := by
  have hfb : Bitmap.first_bit false (t.pages p).bitmap t.file_hdr.num_records_per_page
      = 0 := by
    unfold Bitmap.first_bit
    obtain ⟨m, hm⟩ : ∃ m, t.file_hdr.num_records_per_page.toNat = m + 1 :=
      ⟨t.file_hdr.num_records_per_page.toNat - 1, by omega⟩
    rw [hm]
    unfold Bitmap.scanFirstI
    rw [if_pos (by
      rw [hbm, hm]
      simp [List.replicate_succ])]
  unfold RmFileHandle.insert_into
  simp only [hfb]
  rw [if_neg (by
    push_neg
    constructor
    · omega
    · omega)]
  split_ifs with h1 h2
  · exact absurd h2 hfff
  · rfl
  · rfl

theorem set_replicate_zero {α : Type _} (m : Nat) (a b : α) :
    (List.replicate (m + 1) a).set 0 b = b :: List.replicate m a := by
  simp [List.replicate_succ]

theorem insert_step_shape (rs npp bs : Int) (n : Nat) (s : RmFile) (buf : List Int)
    (hnpp : 1 ≤ npp) (hsh : insertShape rs npp bs n s) :
    (RmFileHandle.insert_record s buf).1 = .ok ⟨(n : Int) + 1, 0⟩ ∧
    insertShape rs npp bs (n + 1) (RmFileHandle.insert_record s buf).2 := by
  obtain ⟨hrs, hnppE, hbs, hnp, hff, hpg⟩ := hsh
  obtain ⟨hcn1, hcn2, hcn3, hcn4, hcn5, hcn8, hcn6, hcn7⟩ := create_new_page_facts s
  rw [insert_record_on_no_free s buf hff]
  rw [insert_into_fresh _ _ buf ?hbm ?hnum ?hn ?hf]
  case hbm => rw [hcn6, hcn3, hnppE]
  case hnum => rw [hcn6]
  case hn => rw [hcn3, hnppE]; exact hnpp
  case hf =>
    rw [hcn4, hff, hnp]
    simp only [RM_NO_PAGE]
    omega
  constructor
  · simp [hnp]
  · refine ⟨?_, ?_, ?_, ?_, ?_, ?_⟩
    · show (RmFileHandle.create_new_page_handle s).2.file_hdr.record_size = rs
      rw [hcn5, hrs]
    · show (RmFileHandle.create_new_page_handle s).2.file_hdr.num_records_per_page = npp
      rw [hcn3, hnppE]
    · show (RmFileHandle.create_new_page_handle s).2.file_hdr.bitmap_size = bs
      rw [hcn8, hbs]
    · show (RmFileHandle.create_new_page_handle s).2.file_hdr.num_pages = ((n + 1 : Nat) : Int) + 1
      rw [hcn2, hnp]
      push_cast
      ring
    · show (RmFileHandle.create_new_page_handle s).2.file_hdr.first_free_page_no = RM_NO_PAGE
      rw [hcn4, hff]
    · intro q hq1 hq2
      simp only [RmFile.setPage]
      by_cases hq : q = s.file_hdr.num_pages
      · rw [if_pos hq]
        constructor
        · show Bitmap.setBit ((RmFileHandle.create_new_page_handle s).2.pages
              s.file_hdr.num_pages).bitmap 0 = onlySlot0 npp.toNat
          rw [hcn6]
          simp only [hnppE]
          unfold Bitmap.setBit onlySlot0
          obtain ⟨m, hm⟩ : ∃ m, npp.toNat = m + 1 := ⟨npp.toNat - 1, by omega⟩
          rw [hm]
          simp [set_replicate_zero]
        · show ((RmFileHandle.create_new_page_handle s).2.pages
              s.file_hdr.num_pages).page_hdr.num_records + 1 = 1
          rw [hcn6]
          norm_num
      · rw [if_neg hq]
        rw [hcn7 q hq]
        refine hpg q hq1 ?_
        push_cast at hq2
        rw [hnp] at hq
        omega

theorem insertAll_shape (rs npp bs : Int) (hnpp : 1 ≤ npp) :
    ∀ (bufs : List (List Int)) (n : Nat) (s : RmFile), insertShape rs npp bs n s →
      (insertAll s bufs).1
        = (List.range bufs.length).map (fun i => .ok ⟨(n : Int) + (i : Int) + 1, 0⟩) ∧
      insertShape rs npp bs (n + bufs.length) (insertAll s bufs).2 := by
  intro bufs
  induction bufs with
  | nil =>
    intro n s hsh
    exact ⟨rfl, by simpa using hsh⟩
  | cons buf bufs ih =>
    intro n s hsh
    obtain ⟨hr1, hsh1⟩ := insert_step_shape rs npp bs n s buf hnpp hsh
    obtain ⟨hr2, hsh2⟩ := ih (n + 1) (RmFileHandle.insert_record s buf).2 hsh1
    constructor
    · show (RmFileHandle.insert_record s buf).1
          :: (insertAll (RmFileHandle.insert_record s buf).2 bufs).1
        = (List.range (buf :: bufs).length).map (fun i => .ok ⟨(n : Int) + (i : Int) + 1, 0⟩)
      rw [hr1, hr2]
      rw [List.length_cons, List.range_succ_eq_map, List.map_cons, List.map_map]
      congr 1
      apply List.map_congr_left
      intro i _
      simp only [Function.comp_apply, Except.ok.injEq, Rid.mk.injEq]
      refine ⟨?_, trivial⟩
      push_cast
      ring
    · show insertShape rs npp bs (n + (buf :: bufs).length)
          (insertAll (RmFileHandle.insert_record s buf).2 bufs).2
      have harith : n + (buf :: bufs).length = (n + 1) + bufs.length := by
        simp [List.length_cons]
        omega
      rw [harith]
      exact hsh2

theorem next_bit_onlySlot0_start (npp : Int) (h1 : 1 ≤ npp) :
    Bitmap.next_bit true (onlySlot0 npp.toNat) npp (-1) = 0 := by
  unfold Bitmap.next_bit
  have h0 : (-1 : Int) + 1 = 0 := by norm_num
  rw [h0, sub_zero]
  obtain ⟨m, hm⟩ : ∃ m, npp.toNat = m + 1 := ⟨npp.toNat - 1, by omega⟩
  rw [hm]
  unfold Bitmap.scanFirstI
  rw [if_pos (by simp [onlySlot0])]

theorem next_bit_onlySlot0_from0 (npp : Int) (_h1 : 1 ≤ npp) :
    Bitmap.next_bit true (onlySlot0 npp.toNat) npp 0 = npp := by
  unfold Bitmap.next_bit
  have h0 : (0 : Int) + 1 = 1 := by norm_num
  rw [h0]
  rw [scanFirstI_none true (onlySlot0 npp.toNat) (npp - 1).toNat 1 ?hall]
  case hall =>
    intro j hj1 hj2
    obtain ⟨m, hm⟩ : ∃ m, j.toNat = m + 1 := ⟨j.toNat - 1, by omega⟩
    rw [hm]
    unfold onlySlot0
    rw [List.getD_cons_succ, getD_replicate_self]
    simp

theorem scanLoop_shape_at (s : RmFile) (n : Nat)
    (hnp : s.file_hdr.num_pages = (n : Int) + 1)
    (hnpp1 : 1 ≤ s.file_hdr.num_records_per_page)
    (hpg : ∀ p : Int, 1 ≤ p → p ≤ (n : Int) →
      (s.pages p).bitmap = onlySlot0 s.file_hdr.num_records_per_page.toNat) :
    ∀ (m : Nat) (p : Int), ((n : Int) + 1 - p).toNat = m → 1 ≤ p →
      RmScan.scanLoop s m p (-1)
        = if p ≤ (n : Int) then (⟨p, 0⟩ : Rid) else (⟨RM_NO_PAGE, -1⟩ : Rid) := by
  intro m p hm hp
  cases m with
  | zero =>
    rw [if_neg (by omega)]
    rfl
  | succ k =>
    have hple : p ≤ (n : Int) := by omega
    rw [if_pos hple]
    unfold RmScan.scanLoop
    rw [if_neg (by
      simp only [RM_FIRST_RECORD_PAGE]
      rw [hnp]
      push_neg
      constructor
      · omega
      · omega)]
    simp only [hpg p hp hple, next_bit_onlySlot0_start _ hnpp1]
    rw [if_pos (by omega : (0 : Int) < s.file_hdr.num_records_per_page)]

theorem next_shape_from0 (s : RmFile) (n : Nat)
    (hnp : s.file_hdr.num_pages = (n : Int) + 1)
    (hnpp1 : 1 ≤ s.file_hdr.num_records_per_page)
    (hpg : ∀ p : Int, 1 ≤ p → p ≤ (n : Int) →
      (s.pages p).bitmap = onlySlot0 s.file_hdr.num_records_per_page.toNat)
    (p : Int) (hp1 : 1 ≤ p) (hp2 : p ≤ (n : Int)) :
    RmScan.next s ⟨p, 0⟩
      = if p + 1 ≤ (n : Int) then (⟨p + 1, 0⟩ : Rid) else (⟨RM_NO_PAGE, -1⟩ : Rid) := by
  unfold RmScan.next
  rw [if_neg (by
    show ¬ (p = RM_NO_PAGE)
    simp only [RM_NO_PAGE]
    omega)]
  obtain ⟨k, hk⟩ : ∃ k, ((n : Int) + 1 - p).toNat = k + 1 :=
    ⟨((n : Int) + 1 - p).toNat - 1, by omega⟩
  have hfuel : (s.file_hdr.num_pages - (⟨p, 0⟩ : Rid).page_no).toNat = k + 1 := by
    rw [hnp]
    exact hk
  rw [hfuel]
  unfold RmScan.scanLoop
  rw [if_neg (by
    simp only [RM_FIRST_RECORD_PAGE]
    rw [hnp]
    push_neg
    constructor
    · show (1 : Int) ≤ (⟨p, 0⟩ : Rid).page_no
      exact hp1
    · show ((⟨p, 0⟩ : Rid).page_no : Int) < (n : Int) + 1
      omega)]
  simp only [hpg p hp1 hp2, next_bit_onlySlot0_from0 _ hnpp1]
  rw [if_neg (lt_irrefl _)]
  rw [scanLoop_shape_at s n hnp hnpp1 hpg k (p + 1) (by omega) (by omega)]

theorem collect_end (s : RmFile) : ∀ c, RmScan.collect s c ⟨RM_NO_PAGE, -1⟩ = [] := by
  intro c
  cases c with
  | zero => rfl
  | succ k =>
    unfold RmScan.collect
    rw [if_pos rfl]

theorem collect_shape_aux (s : RmFile) (n : Nat)
    (hnp : s.file_hdr.num_pages = (n : Int) + 1)
    (hnpp1 : 1 ≤ s.file_hdr.num_records_per_page)
    (hpg : ∀ p : Int, 1 ≤ p → p ≤ (n : Int) →
      (s.pages p).bitmap = onlySlot0 s.file_hdr.num_records_per_page.toNat) :
    ∀ (c : Nat) (p : Int), 1 ≤ p → p ≤ (n : Int) → ((n : Int) - p).toNat < c →
      RmScan.collect s c ⟨p, 0⟩
        = (List.range (((n : Int) - p).toNat + 1)).map
            (fun (i : Nat) => (⟨p + (i : Int), 0⟩ : Rid)) := by
  intro c
  induction c with
  | zero =>
    intro p _ _ h
    exact absurd h (by omega)
  | succ c ih =>
    intro p hp1 hp2 hc
    unfold RmScan.collect
    rw [if_neg (by
      show ¬ (p = RM_NO_PAGE)
      simp only [RM_NO_PAGE]
      omega)]
    rw [next_shape_from0 s n hnp hnpp1 hpg p hp1 hp2]
    by_cases hpn : p + 1 ≤ (n : Int)
    · rw [if_pos hpn]
      rw [ih (p + 1) (by omega) hpn (by omega)]
      have hk : ((n : Int) - p).toNat = ((n : Int) - (p + 1)).toNat + 1 := by omega
      rw [hk]
      have htail : List.map (fun (i : Nat) => (⟨p + 1 + (i : Int), 0⟩ : Rid))
            (List.range (((n : Int) - (p + 1)).toNat + 1))
          = List.map ((fun (i : Nat) => (⟨p + (i : Int), 0⟩ : Rid)) ∘ Nat.succ)
            (List.range (((n : Int) - (p + 1)).toNat + 1)) := by
        apply List.map_congr_left
        intro i _
        simp only [Function.comp_apply, Rid.mk.injEq]
        refine ⟨?_, trivial⟩
        push_cast
        ring
      rw [htail]
      conv_rhs => rw [List.range_succ_eq_map, List.map_cons, List.map_map]
      congr 1
      all_goals simp
    · rw [if_neg hpn]
      rw [collect_end]
      have hpn' : p = (n : Int) := by omega
      have h0 : ((n : Int) - p).toNat = 0 := by omega
      rw [h0]
      simp [hpn', List.range_succ]

theorem scanList_shape (s : RmFile) (n : Nat)
    (hnp : s.file_hdr.num_pages = (n : Int) + 1)
    (hnpp1 : 1 ≤ s.file_hdr.num_records_per_page)
    (hpg : ∀ p : Int, 1 ≤ p → p ≤ (n : Int) →
      (s.pages p).bitmap = onlySlot0 s.file_hdr.num_records_per_page.toNat) :
    RmScan.scanList s
      = (List.range n).map (fun (i : Nat) => (⟨(i : Int) + 1, 0⟩ : Rid)) := by
  unfold RmScan.scanList RmScan.start RmScan.next
  rw [if_neg (by
    show ¬ ((1 : Int) = RM_NO_PAGE)
    simp [RM_NO_PAGE])]
  have hfuel : (s.file_hdr.num_pages - (⟨RM_FIRST_RECORD_PAGE, -1⟩ : Rid).page_no).toNat
      = n := by
    show (s.file_hdr.num_pages - RM_FIRST_RECORD_PAGE).toNat = n
    rw [hnp]
    simp only [RM_FIRST_RECORD_PAGE]
    omega
  rw [hfuel]
  simp only [RM_FIRST_RECORD_PAGE]
  rw [scanLoop_shape_at s n hnp hnpp1 hpg n 1 (by omega) (by omega)]
  by_cases hn : (1 : Int) ≤ (n : Int)
  · rw [if_pos hn]
    have hcb : ((n : Int) - 1).toNat
        < s.file_hdr.num_pages.toNat * (s.file_hdr.num_records_per_page.toNat + 1) + 1 := by
      have h1 : s.file_hdr.num_pages.toNat = n + 1 := by rw [hnp]; omega
      have h2 : n + 1 ≤ (n + 1) * (s.file_hdr.num_records_per_page.toNat + 1) :=
        Nat.le_mul_of_pos_right (n + 1) (by omega)
      rw [h1]
      omega
    rw [collect_shape_aux s n hnp hnpp1 hpg _ 1 (by omega) hn hcb]
    have hkn : ((n : Int) - 1).toNat + 1 = n := by omega
    rw [hkn]
    apply List.map_congr_left
    intro i _
    simp only [Rid.mk.injEq]
    refine ⟨?_, trivial⟩
    ring
  · rw [if_neg hn]
    rw [collect_end]
    have hn0 : n = 0 := by omega
    simp [hn0]

theorem chain'_ridLt_range (n : Nat) :
    List.Chain' ridLt
      ((List.range n).map (fun (i : Nat) => (⟨(i : Int) + 1, 0⟩ : Rid))) := by
  rw [List.chain'_map]
  cases n with
  | zero => simp
  | succ m =>
    rw [List.chain'_range_succ]
    intro j hj
    left
    push_cast
    omega

/-- C4: over a file produced from an empty file by any sequence of
`insert_record(buf)` calls (no deletes or updates), a full scan — start the
cursor, then repeatedly read `rid()` and `next()` until `is_end()` — visits
exactly the rids those inserts returned, each exactly once, in strictly
increasing `(page_no, slot_no)` order; advancing past the last visited rid
leaves the cursor at `(RM_NO_PAGE, -1)`, and the scan of a file with no
live record starts in the end state. -/
theorem C4_scan_visits_exactly_inserted_rids (rs npp bs : Int) (bufs : List (List Int))
    (hnpp : 1 ≤ npp) :
    (insertAll (emptyFile rs npp bs) bufs).1
      = (List.range bufs.length).map (fun (i : Nat) => .ok (⟨(i : Int) + 1, 0⟩ : Rid)) ∧
    RmScan.scanList (insertAll (emptyFile rs npp bs) bufs).2
      = (List.range bufs.length).map (fun (i : Nat) => (⟨(i : Int) + 1, 0⟩ : Rid)) ∧
    List.Chain' ridLt (RmScan.scanList (insertAll (emptyFile rs npp bs) bufs).2) ∧
    RmScan.next (insertAll (emptyFile rs npp bs) bufs).2 ⟨(bufs.length : Int), 0⟩
      = ⟨RM_NO_PAGE, -1⟩ ∧
    RmScan.start (emptyFile rs npp bs) = ⟨RM_NO_PAGE, -1⟩ := by
  have hsh0 : insertShape rs npp bs 0 (emptyFile rs npp bs) := by
    refine ⟨rfl, rfl, rfl, by simp [emptyFile], rfl, ?_⟩
    intro p h1 h2
    exfalso
    push_cast at h2
    omega
  obtain ⟨hres, hshn⟩ := insertAll_shape rs npp bs hnpp bufs 0 (emptyFile rs npp bs) hsh0
  obtain ⟨hrsF, hnppF, hbsF, hnpF, hffF, hpgF⟩ := hshn
  have hlen : 0 + bufs.length = bufs.length := by omega
  rw [hlen] at hnpF hpgF
  have hnpp1F : 1 ≤ (insertAll (emptyFile rs npp bs) bufs).2.file_hdr.num_records_per_page := by
    rw [hnppF]
    exact hnpp
  have hpgF' : ∀ p : Int, 1 ≤ p → p ≤ (bufs.length : Int) →
      ((insertAll (emptyFile rs npp bs) bufs).2.pages p).bitmap
        = onlySlot0
            (insertAll (emptyFile rs npp bs) bufs).2.file_hdr.num_records_per_page.toNat := by
    intro p h1 h2
    rw [hnppF]
    exact (hpgF p h1 h2).1
  refine ⟨?_, ?_, ?_, ?_, ?_⟩
  · rw [hres]
    apply List.map_congr_left
    intro i _
    simp
  · exact scanList_shape _ bufs.length hnpF hnpp1F hpgF'
  · rw [scanList_shape _ bufs.length hnpF hnpp1F hpgF']
    exact chain'_ridLt_range bufs.length
  · by_cases hb0 : bufs.length = 0
    · simp only [hb0, Nat.cast_zero]
      unfold RmScan.next
      rw [if_neg (by
        show ¬ ((0 : Int) = RM_NO_PAGE)
        simp [RM_NO_PAGE])]
      have hfz : ((insertAll (emptyFile rs npp bs) bufs).2.file_hdr.num_pages
          - ((⟨0, 0⟩ : Rid)).page_no).toNat = 1 := by
        show ((insertAll (emptyFile rs npp bs) bufs).2.file_hdr.num_pages - (0 : Int)).toNat = 1
        rw [hnpF, hb0]
        norm_num
      rw [hfz]
      unfold RmScan.scanLoop
      rw [if_pos (Or.inl (by
        show (0 : Int) < RM_FIRST_RECORD_PAGE
        simp [RM_FIRST_RECORD_PAGE]))]
    · have h1len : 1 ≤ (bufs.length : Int) := by
        omega
      rw [next_shape_from0 _ bufs.length hnpF hnpp1F hpgF' (bufs.length : Int) h1len
        (le_refl _)]
      rw [if_neg (by omega)]
  · rfl

/-- Witness for C4 with two inserts into a one-slot-per-page file. -/
theorem C4_scan_visits_exactly_inserted_rids_witness :
    (1 : Int) ≤ 1 ∧
    (insertAll (emptyFile 1 1 1) [[3], [4]]).1 = [.ok ⟨1, 0⟩, .ok ⟨2, 0⟩] ∧
    RmScan.scanList (insertAll (emptyFile 1 1 1) [[3], [4]]).2 = [⟨1, 0⟩, ⟨2, 0⟩] ∧
    RmScan.next (insertAll (emptyFile 1 1 1) [[3], [4]]).2 ⟨2, 0⟩ = ⟨RM_NO_PAGE, -1⟩ := by
  obtain ⟨h1, h2, h3, h4, h5⟩ :=
    C4_scan_visits_exactly_inserted_rids 1 1 1 [[3], [4]] (by decide)
  refine ⟨by decide, ?_, ?_, ?_⟩
  · rw [h1]
    decide
  · rw [h2]
    decide
  · exact h4

/-! ## LRU replacer history lemmas (C9) -/

theorem map_fst_filter_ne (gs : List (Nat × Nat)) (f : Nat) :
    (gs.filter (fun e => e.1 != f)).map Prod.fst
      = (gs.map Prod.fst).filter (fun x => x != f) := by
  induction gs with
  | nil => rfl
  | cons e tl ih =>
    by_cases he : (e.1 != f) = true <;>
      simp [List.filter_cons, he, ih]

theorem gstep_map_fst (t : Nat) (gs : List (Nat × Nat)) (op : RepOp)
    (hnd : (gs.map Prod.fst).Nodup) :
    (gstep t gs op).map Prod.fst = LRUReplacer.stepOp (gs.map Prod.fst) op := by
  cases op with
  | pin f =>
    show (gs.filter (fun e => e.1 != f)).map Prod.fst
      = LRUReplacer.pinFrame (gs.map Prod.fst) f
    unfold LRUReplacer.pinFrame
    rw [hnd.erase_eq_filter]
    exact map_fst_filter_ne gs f
  | unpin f =>
    show (if f ∈ gs.map Prod.fst then gs else (f, t) :: gs).map Prod.fst
      = LRUReplacer.unpinFrame (gs.map Prod.fst) f
    unfold LRUReplacer.unpinFrame
    split_ifs <;> simp
  | victim =>
    show gs.dropLast.map Prod.fst = LRUReplacer.stepOp (gs.map Prod.fst) .victim
    unfold LRUReplacer.stepOp LRUReplacer.victim
    cases gs with
    | nil => rfl
    | cons e tl =>
      cases hgl : ((e :: tl).map Prod.fst).getLast? with
      | none =>
        exact absurd (List.getLast?_eq_none_iff.mp hgl) (by simp)
      | some x =>
        simp [List.map_dropLast]

theorem stateAt_succ (full : List RepOp) (t : Nat) (ht : t < full.length) :
    LRUReplacer.stateAt full (t + 1)
      = LRUReplacer.stepOp (LRUReplacer.stateAt full t) (full.getD t .victim) := by
  unfold LRUReplacer.stateAt LRUReplacer.runOps
  rw [List.take_succ]
  rw [List.foldl_append]
  have hx : full[t]? = some (full.getD t .victim) := by
    simp [List.getD_eq_getElem?_getD, List.getElem?_eq_getElem ht]
  rw [hx]
  rfl

theorem greplayAux_append (ops1 ops2 : List RepOp) :
    ∀ (t0 : Nat) (gs : List (Nat × Nat)),
      greplayAux t0 (ops1 ++ ops2) gs
        = greplayAux (t0 + ops1.length) ops2 (greplayAux t0 ops1 gs) := by
  induction ops1 with
  | nil =>
    intro t0 gs
    simp [greplayAux]
  | cons op ops ih =>
    intro t0 gs
    show greplayAux (t0 + 1) (ops ++ ops2) (gstep t0 gs op) = _
    rw [ih]
    congr 1
    simp [List.length_cons]
    omega

theorem greplay_take_succ (full : List RepOp) (t : Nat) (ht : t < full.length) :
    greplay (full.take (t + 1)) = gstep t (greplay (full.take t)) (full.getD t .victim) := by
  unfold greplay
  rw [List.take_succ]
  have hx : full[t]? = some (full.getD t .victim) := by
    simp [List.getD_eq_getElem?_getD, List.getElem?_eq_getElem ht]
  rw [hx]
  show greplayAux 0 (full.take t ++ [full.getD t .victim]) [] = _
  rw [greplayAux_append]
  have hlen : 0 + (full.take t).length = t := by
    rw [List.length_take]
    omega
  rw [hlen]
  rfl

theorem max?_eq_some_of_mem_ub (l : List Nat) (a : Nat) (hm : a ∈ l)
    (hub : ∀ x ∈ l, x ≤ a) : l.max? = some a := by
  refine (List.max?_eq_some_iff ?_ ?_ ?_).mpr ⟨hm, hub⟩
  · exact fun x => Nat.le_refl x
  · exact fun x y => max_choice x y
  · exact fun x y z => Nat.max_le

theorem pairwise_getLast_min (gs : List (Nat × Nat))
    (hpw : List.Pairwise (fun a b => b.2 < a.2) gs) (e : Nat × Nat) (he : e ∈ gs)
    (hne : gs ≠ []) : (gs.getLast hne).2 ≤ e.2 := by
  induction gs with
  | nil => exact absurd rfl hne
  | cons x tl ih =>
    cases tl with
    | nil =>
      have : e = x := by simpa using he
      subst this
      exact le_refl _
    | cons y tl' =>
      rw [List.getLast_cons (by simp)]
      rcases List.mem_cons.mp he with rfl | hmem
      · have hlast : (y :: tl').getLast (by simp) ∈ y :: tl' := List.getLast_mem _
        have := (List.pairwise_cons.mp hpw).1 _ hlast
        omega
      · exact ih (List.pairwise_cons.mp hpw).2 hmem (by simp)

theorem ginv_step (full : List RepOp) (t : Nat) (gs : List (Nat × Nat))
    (ht : t < full.length)
    (hinv : GInv full t gs)
    (hstate : gs.map Prod.fst = LRUReplacer.stateAt full t) :
    GInv full (t + 1) (gstep t gs (full.getD t .victim)) ∧
    (gstep t gs (full.getD t .victim)).map Prod.fst = LRUReplacer.stateAt full (t + 1) := by
  obtain ⟨hnd, hpw, htm, heff, hcont⟩ := hinv
  have hmapstep := gstep_map_fst t gs (full.getD t .victim) hnd
  have hsucc := stateAt_succ full t ht
  have hstate' : (gstep t gs (full.getD t .victim)).map Prod.fst
      = LRUReplacer.stateAt full (t + 1) := by
    rw [hmapstep, hstate, hsucc]
  refine ⟨?_, hstate'⟩
  cases hop : full.getD t .victim with
  | pin f =>
    rw [hop] at hsucc
    refine ⟨?_, ?_, ?_, ?_, ?_⟩
    · show ((gs.filter (fun e => e.1 != f)).map Prod.fst).Nodup
      rw [map_fst_filter_ne]
      exact hnd.filter _
    · exact List.Pairwise.sublist (List.filter_sublist _) hpw
    · intro e he
      have := htm e (List.mem_of_mem_filter he)
      omega
    · intro e he
      exact heff e (List.mem_of_mem_filter he)
    · intro e he v hv1 hv2
      have hegs := List.mem_of_mem_filter he
      by_cases hvt : v ≤ t
      · exact hcont e hegs v hv1 hvt
      · have hv : v = t + 1 := by omega
        subst hv
        rw [hsucc]
        have hne : e.1 ≠ f := by
          have := List.of_mem_filter he
          simpa using this
        have hmem : e.1 ∈ LRUReplacer.stateAt full t :=
          hcont e hegs t (htm e hegs) (le_refl t)
        show e.1 ∈ (LRUReplacer.stateAt full t).erase f
        exact (List.mem_erase_of_ne hne).mpr hmem
  | unpin f =>
    rw [hop] at hsucc
    by_cases hf : f ∈ gs.map Prod.fst
    · have hred : gstep t gs (.unpin f) = gs := by simp [gstep, hf]
      rw [hred]
      refine ⟨hnd, hpw, ?_, heff, ?_⟩
      · intro e he
        have := htm e he
        omega
      · intro e he v hv1 hv2
        by_cases hvt : v ≤ t
        · exact hcont e he v hv1 hvt
        · have hv : v = t + 1 := by omega
          subst hv
          rw [hsucc]
          have hmem : e.1 ∈ LRUReplacer.stateAt full t :=
            hcont e he t (htm e he) (le_refl t)
          show e.1 ∈ LRUReplacer.unpinFrame (LRUReplacer.stateAt full t) f
          unfold LRUReplacer.unpinFrame
          split_ifs with hmemf
          · exact hmem
          · exact List.mem_cons_of_mem _ hmem
    · have hred : gstep t gs (.unpin f) = (f, t) :: gs := by simp [gstep, hf]
      rw [hred]
      refine ⟨?_, ?_, ?_, ?_, ?_⟩
      · simp only [List.map_cons]
        exact List.nodup_cons.mpr ⟨hf, hnd⟩
      · refine List.pairwise_cons.mpr ⟨?_, hpw⟩
        intro e he
        exact htm e he
      · intro e he
        rcases List.mem_cons.mp he with rfl | hmem
        · show t < t + 1
          omega
        · have := htm e hmem
          omega
      · intro e he
        rcases List.mem_cons.mp he with rfl | hmem
        · refine ⟨hop, ?_⟩
          rw [← hstate]
          exact hf
        · exact heff e hmem
      · intro e he v hv1 hv2
        rcases List.mem_cons.mp he with rfl | hmem
        · have hv1' : t < v := hv1
          have hv : v = t + 1 := by omega
          subst hv
          rw [hsucc]
          show f ∈ LRUReplacer.unpinFrame (LRUReplacer.stateAt full t) f
          unfold LRUReplacer.unpinFrame
          split_ifs with hmemf
          · exact hmemf
          · exact List.mem_cons_self _ _
        · by_cases hvt : v ≤ t
          · exact hcont e hmem v hv1 hvt
          · have hv : v = t + 1 := by omega
            subst hv
            rw [hsucc]
            have hmemst : e.1 ∈ LRUReplacer.stateAt full t :=
              hcont e hmem t (htm e hmem) (le_refl t)
            show e.1 ∈ LRUReplacer.unpinFrame (LRUReplacer.stateAt full t) f
            unfold LRUReplacer.unpinFrame
            split_ifs with hmemf
            · exact hmemst
            · exact List.mem_cons_of_mem _ hmemst
  | victim =>
    rw [hop] at hsucc
    have hred : gstep t gs .victim = gs.dropLast := rfl
    rw [hred]
    refine ⟨?_, ?_, ?_, ?_, ?_⟩
    · rw [List.map_dropLast]
      exact (List.dropLast_sublist _).nodup hnd
    · exact List.Pairwise.sublist (List.dropLast_sublist _) hpw
    · intro e he
      have := htm e ((List.dropLast_sublist gs).subset he)
      omega
    · intro e he
      exact heff e ((List.dropLast_sublist gs).subset he)
    · intro e he v hv1 hv2
      by_cases hvt : v ≤ t
      · exact hcont e ((List.dropLast_sublist gs).subset he) v hv1 hvt
      · have hv : v = t + 1 := by omega
        subst hv
        rw [hsucc]
        have hmem1 : e.1 ∈ (gs.map Prod.fst).dropLast := by
          rw [← List.map_dropLast]
          exact List.mem_map_of_mem _ he
        rw [← hstate]
        show e.1 ∈ LRUReplacer.stepOp (gs.map Prod.fst) .victim
        unfold LRUReplacer.stepOp LRUReplacer.victim
        cases hgl : (gs.map Prod.fst).getLast? with
        | none =>
          have hz : gs.map Prod.fst = [] := List.getLast?_eq_none_iff.mp hgl
          rw [hz] at hmem1
          simp at hmem1
        | some x =>
          exact hmem1

theorem ginv_main (full : List RepOp) :
    ∀ t : Nat, t ≤ full.length →
      GInv full t (greplay (full.take t)) ∧
      (greplay (full.take t)).map Prod.fst = LRUReplacer.stateAt full t := by
  intro t
  induction t with
  | zero =>
    intro _
    constructor
    · refine ⟨?_, ?_, ?_, ?_, ?_⟩ <;> simp [greplay, greplayAux]
    · rfl
  | succ t ih =>
    intro ht
    obtain ⟨hinv, hstate⟩ := ih (by omega)
    have hstep := ginv_step full t (greplay (full.take t)) (by omega) hinv hstate
    rw [greplay_take_succ full t (by omega)]
    exact hstep

theorem lastEffUnpin_of_mem (full : List RepOp) (e : Nat × Nat)
    (he : e ∈ greplay full) :
    lastEffUnpin full e.1 = some e.2 := by
  obtain ⟨hinv, hstate⟩ := ginv_main full full.length (le_refl _)
  rw [List.take_length] at hinv hstate
  obtain ⟨hnd, hpw, htm, heff, hcont⟩ := hinv
  unfold lastEffUnpin
  apply max?_eq_some_of_mem_ub
  · rw [List.mem_filter]
    refine ⟨List.mem_range.mpr (htm e he), ?_⟩
    simpa using heff e he
  · intro w hw
    rw [List.mem_filter] at hw
    obtain ⟨hwlen, hweff⟩ := hw
    rw [List.mem_range] at hwlen
    have hweff' : effUnpinAt full w e.1 := by simpa using hweff
    by_contra hlt
    push_neg at hlt
    have hin : e.1 ∈ LRUReplacer.stateAt full w :=
      hcont e he w (by omega) (by omega)
    exact absurd hin hweff'.2

/-- C9: over any operation history from the empty replacer, `victim` fails
exactly when no frame is eligible and otherwise removes and returns the
least-recently-used eligible frame — the one whose most recent effective
unpin is earliest; `unpin` is a no-op on an eligible frame and otherwise
makes the frame the MRU head; `pin` is a no-op on an absent frame and
otherwise removes exactly that frame. -/
theorem C9_lru_replacer_behavior (ops : List RepOp) : lru_replacer_spec ops := by
  obtain ⟨hinv, hstate⟩ := ginv_main ops ops.length (le_refl _)
  rw [List.take_length] at hinv hstate
  unfold LRUReplacer.stateAt at hstate
  rw [List.take_length] at hstate
  obtain ⟨hnd, hpw, htm, heff, hcont⟩ := hinv
  have hnodupL : (LRUReplacer.runOps ops).Nodup := by
    rw [← hstate]
    exact hnd
  refine ⟨?_, ?_, ?_, ?_, ?_, ?_⟩
  · constructor
    · intro h
      unfold LRUReplacer.victim at h
      cases hgl : (LRUReplacer.runOps ops).getLast? with
      | none => exact List.getLast?_eq_none_iff.mp hgl
      | some x => rw [hgl] at h; simp at h
    · intro h
      rw [h]
      rfl
  · intro f l' h
    unfold LRUReplacer.victim at h
    cases hgl : (LRUReplacer.runOps ops).getLast? with
    | none => rw [hgl] at h; simp at h
    | some x =>
      rw [hgl] at h
      simp only [Option.some.injEq, Prod.mk.injEq] at h
      obtain ⟨hxf, hl'⟩ := h
      have hLne : LRUReplacer.runOps ops ≠ [] := by
        intro hz
        rw [hz] at hgl
        simp at hgl
      have hgl2 : ((greplay ops).map Prod.fst).getLast? = some x := by
        rw [hstate]
        exact hgl
      rw [List.getLast?_map] at hgl2
      obtain ⟨e, hegs, hex⟩ := Option.map_eq_some'.mp hgl2
      have hemem : e ∈ greplay ops := by
        have hmem : e ∈ (greplay ops).getLast? := by rw [hegs]; rfl
        obtain ⟨hne0, hEq⟩ := List.mem_getLast?_eq_getLast hmem
        rw [hEq]
        exact List.getLast_mem hne0
      have hlast : (LRUReplacer.runOps ops).getLast hLne = f := by
        have h2 := List.getLast?_eq_getLast_of_ne_nil hLne
        rw [hgl] at h2
        rw [← hxf]
        exact (Option.some.inj h2).symm
      refine ⟨?_, ?_, ?_⟩
      · rw [← hstate, ← hxf, ← hex]
        exact List.mem_map_of_mem _ hemem
      · intro g hg
        rw [← hstate] at hg
        obtain ⟨eg, hegmem, rfl⟩ := List.mem_map.mp hg
        refine ⟨e.2, eg.2, ?_, lastEffUnpin_of_mem ops eg hegmem, ?_⟩
        · have hlu := lastEffUnpin_of_mem ops e hemem
          rw [hex, hxf] at hlu
          exact hlu
        · have hgsne : greplay ops ≠ [] := by
            intro hz
            rw [hz] at hegs
            simp at hegs
          have hegl : (greplay ops).getLast hgsne = e := by
            have h3 := List.getLast?_eq_getLast_of_ne_nil hgsne
            rw [hegs] at h3
            exact (Option.some.inj h3).symm
          have hmin := pairwise_getLast_min (greplay ops) hpw eg hegmem hgsne
          rw [hegl] at hmin
          exact hmin
      · intro g
        rw [← hl']
        have hsplit := List.dropLast_append_getLast hLne
        constructor
        · intro hgd
          refine ⟨(List.dropLast_sublist _).subset hgd, ?_⟩
          intro hgf
          subst hgf
          have hdup := hnodupL
          rw [← hsplit] at hdup
          have hdisj := (List.nodup_append.mp hdup).2.2
          exact hdisj hgd (by simp [hlast])
        · rintro ⟨hgL, hgf⟩
          rw [← hsplit] at hgL
          rcases List.mem_append.mp hgL with h1 | h1
          · exact h1
          · exfalso
            apply hgf
            rw [List.mem_singleton.mp h1, hlast]
  · intro f hf
    unfold LRUReplacer.unpinFrame
    rw [if_pos hf]
  · intro f hf
    unfold LRUReplacer.unpinFrame
    rw [if_neg hf]
  · intro f hf
    show (LRUReplacer.runOps ops).erase f = LRUReplacer.runOps ops
    exact List.erase_of_not_mem hf
  · intro f g
    show g ∈ (LRUReplacer.runOps ops).erase f ↔ _
    rw [List.Nodup.mem_erase_iff hnodupL]
    constructor
    · rintro ⟨h1, h2⟩
      exact ⟨h2, h1⟩
    · rintro ⟨h1, h2⟩
      exact ⟨h2, h1⟩

end Rmdb
